import Mathlib

/-!
Verification of the Synapse EMR backend (`src/app.py`).

The program is a Flask service over a whole-file JSON document store.  This
development shallowly embeds the JSON data model, the Python-level value
semantics the handlers rely on (`dict.get`, truthiness, `int(...)`,
`float(...)`, string formatting), the document-store adapter
(`json.dump`/`json.load` modelled by an executable serializer and parser),
and the request handlers `add_new_patient`, `get_patient_details`,
`update_patient_record`, `add_medical_report` and `get_ai_summary`.

Modelling conventions:
* JSON numbers are exact decimals `m / 10 ^ scale`; `scale = 0` is a Python
  `int`, `scale > 0` a Python `float` shown with `scale` fractional digits.
  (Binary floating point is abstracted to exact decimals; no handler does
  float arithmetic, only parsing and storing.)
* `uuid.uuid4()` results are passed in as explicit arguments.
* The Gemini client is an external collaborator: the summary handler's
  result records whether the external service would be invoked and with
  which prompt, instead of performing a call.
* `json.dump(data, f, indent=2)` / `json.load(f)` are modelled by a compact
  serializer and a parser without whitespace skipping: the indentation
  inserted by `dump` is exactly the whitespace `load` ignores, so it is
  elided on both sides.  String escaping follows `ensure_ascii=True`
  (named escapes, `\uXXXX`, surrogate pairs).
-/

/-- JSON values as manipulated by the handlers.  Objects and arrays keep
insertion order, matching Python dicts and lists. -/
inductive JVal where
  | null
  | bool (b : Bool)
  | num (m : Int) (scale : Nat)
  | str (s : String)
  | arr (xs : List JVal)
  | obj (fs : List (String × JVal))

/-- Python `d[k]` / `d.get(k)` on a dict: value of the first binding of `k`. -/
def pyGet : List (String × JVal) → String → Option JVal
  | [], _ => none
  | (k', v) :: rest, k => if k' = k then some v else pyGet rest k

/-- Python `d.get(k, default)`. -/
def pyGetD (fs : List (String × JVal)) (k : String) (d : JVal) : JVal :=
  (pyGet fs k).getD d

/-- Python `d[k] = v` on a dict: update in place at the first binding of
`k` if present, otherwise append a new binding at the end (insertion
order). -/
def dictSet : List (String × JVal) → String → JVal → List (String × JVal)
  | [], k, v => [(k, v)]
  | (k0, v0) :: rest, k, v =>
    if k0 = k then (k, v) :: rest else (k0, v0) :: dictSet rest k v

/-- Python truthiness of a JSON value: `None`, `False`, zero, and empty
strings/lists/dicts are falsy. -/
def truthy : JVal → Bool
  | .null => false
  | .bool b => b
  | .num m _ => m ≠ 0
  | .str s => !s.data.isEmpty
  | .arr xs => !xs.isEmpty
  | .obj fs => !fs.isEmpty

/-- Python whitespace stripped by `str.strip()` (ASCII part). -/
def isPySpace (c : Char) : Bool :=
  c = ' ' ∨ c = '\t' ∨ c = '\n' ∨ c = '\r' ∨ c = '\x0b' ∨ c = '\x0c'

/-- Python `s.strip()`. -/
def pyStrip (cs : List Char) : List Char :=
  ((cs.dropWhile isPySpace).reverse.dropWhile isPySpace).reverse

/-- Numeric value of a digit string, most significant digit first. -/
def digitsVal (ds : List Char) : Nat :=
  ds.foldl (fun a c => a * 10 + (c.toNat - 48)) 0

/-- Decimal digits of `n`, most significant first; `fuel`-driven so that the
definition is structural and kernel-reducible. -/
def natDigitsAux : Nat → Nat → List Char
  | 0, _ => []
  | fuel + 1, n =>
    if n = 0 then [] else natDigitsAux fuel (n / 10) ++ [Nat.digitChar (n % 10)]

/-- Decimal rendering of a natural number (`repr` on a nonnegative int). -/
def natChars (n : Nat) : List Char :=
  if n = 0 then ['0'] else natDigitsAux n n

/-- Python `repr` of an `int`. -/
def intChars (m : Int) : List Char :=
  if m < 0 then '-' :: natChars m.natAbs else natChars m.natAbs

/-- Digits of `a` with a decimal point placed `scale` digits from the right,
zero-padded so that at least one digit precedes the point (`1.5`, `0.05`). -/
def decChars (a : Nat) (scale : Nat) : List Char :=
  let ds := natChars a
  let padded := List.replicate (scale + 1 - ds.length) '0' ++ ds
  padded.take (padded.length - scale) ++ '.' :: padded.drop (padded.length - scale)

/-- Rendering of a JSON number: `scale = 0` prints as a Python `int`,
otherwise as a decimal with `scale` fractional digits (Python `float`). -/
def numChars (m : Int) (scale : Nat) : List Char :=
  match scale with
  | 0 => intChars m
  | s + 1 => (if m < 0 then ['-'] else []) ++ decChars m.natAbs (s + 1)

/-- Python `int(x)` on a stripped character sequence: optional sign, then
one or more decimal digits. -/
def pyIntChars (cs : List Char) : Option Int :=
  match cs with
  | '-' :: ds => if ds ≠ [] ∧ ds.all Char.isDigit then some (-(digitsVal ds : Int)) else none
  | '+' :: ds => if ds ≠ [] ∧ ds.all Char.isDigit then some (digitsVal ds) else none
  | ds => if ds ≠ [] ∧ ds.all Char.isDigit then some (digitsVal ds) else none

/-- Python `int(x)` for the value shapes reaching the handlers: ints pass
through, floats truncate toward zero, bools map to 0/1, strings are parsed
(whitespace-stripped, optional sign, digits), everything else raises. -/
def pyInt : JVal → Option Int
  | .num m 0 => some m
  | .num m (s + 1) => some (Int.tdiv m (10 ^ (s + 1)))
  | .bool b => some (if b then 1 else 0)
  | .str s => pyIntChars (pyStrip s.data)
  | _ => none

/-- Python `float(x)` on a stripped character sequence: optional sign,
digits with an optional decimal point (at least one digit overall).  The
result is the exact decimal as a JSON number with `scale ≥ 1`. -/
def pyFloatChars (cs : List Char) : Option (Nat × Nat) :=
  let withSignStripped := cs
  let ip := withSignStripped.takeWhile Char.isDigit
  let rest := withSignStripped.dropWhile Char.isDigit
  match rest with
  | [] => if ip ≠ [] then some (digitsVal ip * 10, 1) else none
  | '.' :: fp =>
    if fp.all Char.isDigit ∧ (ip ≠ [] ∨ fp ≠ []) then
      match fp with
      | [] => some (digitsVal ip * 10, 1)
      | _ => some (digitsVal ip * 10 ^ fp.length + digitsVal fp, fp.length)
    else none
  | _ => none

/-- Python `float(x)`: ints become floats, floats pass through, bools map
to 0.0/1.0, strings are parsed as decimals, everything else raises. -/
def pyFloat : JVal → Option JVal
  | .num m 0 => some (.num (m * 10) 1)
  | .num m (s + 1) => some (.num m (s + 1))
  | .bool b => some (.num (if b then (10 : Int) else 0) 1)
  | .str s =>
    match pyStrip s.data with
    | '-' :: ds => (pyFloatChars ds).map (fun p => .num (-(p.1 : Int)) p.2)
    | '+' :: ds => (pyFloatChars ds).map (fun p => .num p.1 p.2)
    | ds => (pyFloatChars ds).map (fun p => .num p.1 p.2)
  | _ => none

mutual

/-- Python `str(x)` as used inside f-strings: strings verbatim, `None` as
`"None"`, bools capitalized, numbers in decimal; containers via `repr`
(string escaping inside `repr` is elided, it is never hit by the claims). -/
def pyStr : JVal → List Char
  | .null => "None".data
  | .bool true => "True".data
  | .bool false => "False".data
  | .num m scale => numChars m scale
  | .str s => s.data
  | .arr xs => '[' :: pyReprList xs ++ [']']
  | .obj fs => '\x7b' :: pyReprObj fs ++ ['\x7d']

/-- Python `repr(x)`, the element-level rendering used by `str` on
containers: like `pyStr` but strings get single quotes. -/
def pyRepr : JVal → List Char
  | .null => "None".data
  | .bool true => "True".data
  | .bool false => "False".data
  | .num m scale => numChars m scale
  | .str s => '\'' :: s.data ++ ['\'']
  | .arr xs => '[' :: pyReprList xs ++ [']']
  | .obj fs => '\x7b' :: pyReprObj fs ++ ['\x7d']

/-- Comma-separated `repr`s of list elements. -/
def pyReprList : List JVal → List Char
  | [] => []
  | [x] => pyRepr x
  | x :: y :: xs => pyRepr x ++ ',' :: ' ' :: pyReprList (y :: xs)

/-- Comma-separated `'key': repr` renderings of dict entries. -/
def pyReprObj : List (String × JVal) → List Char
  | [] => []
  | [(k, v)] => '\'' :: k.data ++ '\'' :: ':' :: ' ' :: pyRepr v
  | (k, v) :: f :: fs =>
    '\'' :: k.data ++ '\'' :: ':' :: ' ' :: pyRepr v ++ ',' :: ' ' :: pyReprObj (f :: fs)

end

example : pyStr (.num 72 0) = "72".data := by decide
example : pyStr (.num (-5) 1) = "-0.5".data := by decide
example : pyStr (.num 986 1) = "98.6".data := by decide
example : pyInt (.str "72") = some 72 := by decide
example : pyInt (.str "abc") = none := by decide
example : pyInt (.str " -12 ") = some (-12) := by decide
example : pyFloat (.str "98.6") = some (.num 986 1) := by rfl

/-- Hex digit characters: `Nat.digitChar` covers `0`–`f` for inputs below 16. -/
def hex4 (n : Nat) : List Char :=
  [Nat.digitChar (n / 4096 % 16), Nat.digitChar (n / 256 % 16),
   Nat.digitChar (n / 16 % 16), Nat.digitChar (n % 16)]

/-- One `\uXXXX` escape. -/
def uEsc (n : Nat) : List Char :=
  '\\' :: 'u' :: hex4 n

/-- `json.dump` escaping of one character with `ensure_ascii=True`: named
escapes for the JSON specials, `\uXXXX` for other control and non-ASCII
characters, a surrogate pair for characters beyond the basic plane. -/
def encChar (c : Char) : List Char :=
  if c = '"' then ['\\', '"']
  else if c = '\\' then ['\\', '\\']
  else if c = '\n' then ['\\', 'n']
  else if c = '\r' then ['\\', 'r']
  else if c = '\t' then ['\\', 't']
  else if c = '\x08' then ['\\', 'b']
  else if c = '\x0c' then ['\\', 'f']
  else if c.toNat < 0x20 ∨ 0x7F ≤ c.toNat then
    if c.toNat < 0x10000 then uEsc c.toNat
    else uEsc (0xD800 + (c.toNat - 0x10000) / 1024) ++ uEsc (0xDC00 + (c.toNat - 0x10000) % 1024)
  else [c]

/-- `json.dump` escaping of a whole string body. -/
def escChars : List Char → List Char
  | [] => []
  | c :: cs => encChar c ++ escChars cs

mutual

/-- `json.dump(v)` (compact form; the whitespace inserted by `indent=2` is
elided, see the module comment). -/
def jser : JVal → List Char
  | .null => "null".data
  | .bool true => "true".data
  | .bool false => "false".data
  | .num m scale => numChars m scale
  | .str s => '"' :: escChars s.data ++ ['"']
  | .arr [] => ['[', ']']
  | .arr (x :: xs) => '[' :: jser x ++ jserElems xs ++ [']']
  | .obj [] => ['\x7b', '\x7d']
  | .obj ((k, v) :: fs) =>
    '\x7b' :: ('"' :: escChars k.data ++ '"' :: ':' :: jser v) ++ jserMembers fs ++ ['\x7d']

/-- Serialized continuation of a nonempty array: `,elem` repeated. -/
def jserElems : List JVal → List Char
  | [] => []
  | x :: xs => ',' :: jser x ++ jserElems xs

/-- Serialized continuation of a nonempty object: `,"key":value` repeated. -/
def jserMembers : List (String × JVal) → List Char
  | [] => []
  | (k, v) :: fs =>
    ',' :: ('"' :: escChars k.data ++ '"' :: ':' :: jser v) ++ jserMembers fs

end

/-- `save_all_patient_data` (`app.py` lines 34–37): serialize the whole
patient collection; the result is the new content of `mock_data.json`. -/
def save_all_patient_data (data : JVal) : String :=
  String.mk (jser data)

/-- Value of one escape character after a backslash (`\n`, `\"` …). -/
def escCode : Char → Option Char
  | 'b' => some '\x08'
  | 'f' => some '\x0c'
  | 'n' => some '\n'
  | 'r' => some '\r'
  | 't' => some '\t'
  | '"' => some '"'
  | '\\' => some '\\'
  | '/' => some '/'
  | _ => none

/-- Numeric value of one hex digit. -/
def hexVal : Char → Option Nat :=
  fun c =>
    if '0' ≤ c ∧ c ≤ '9' then some (c.toNat - 48)
    else if 'a' ≤ c ∧ c ≤ 'f' then some (c.toNat - 87)
    else if 'A' ≤ c ∧ c ≤ 'F' then some (c.toNat - 55)
    else none

/-- Value of four hex digits. -/
def hex4Val (a b c d : Char) : Option Nat := do
  let va ← hexVal a
  let vb ← hexVal b
  let vc ← hexVal c
  let vd ← hexVal d
  some (va * 4096 + vb * 256 + vc * 16 + vd)

/-- Decoder for the tail of a `\uXXXX` escape that opened with a high
surrogate `n`: expects the paired low-surrogate escape and recombines. -/
def decodeLow (n : Nat) : List Char → Option (Char × List Char)
  | s1 :: s2 :: a2 :: b2 :: c3 :: d2 :: rest3 =>
    if s1 = '\\' ∧ s2 = 'u' then
      (hex4Val a2 b2 c3 d2).bind (fun n2 =>
        if 0xDC00 ≤ n2 ∧ n2 < 0xE000 then
          some (Char.ofNat (0x10000 + (n - 0xD800) * 1024 + (n2 - 0xDC00)), rest3)
        else none)
    else none
  | _ => none

/-- Decoder for the tail of a `\uXXXX` escape (after the `u`). -/
def decodeU : List Char → Option (Char × List Char)
  | a :: b :: c2 :: d :: rest2 =>
    (hex4Val a b c2 d).bind (fun n =>
      if n < 0xD800 ∨ 0xE000 ≤ n then some (Char.ofNat n, rest2)
      else if n < 0xDC00 then decodeLow n rest2
      else none)
  | _ => none

/-- Decoder for one escape sequence (the input starts right after the
backslash): `\uXXXX` escapes with surrogate-pair recombination, named
escapes via `escCode`.  Lone surrogates are rejected (they denote strings
not representable as Lean `String`s; the serializer never produces
them). -/
def decodeEsc : List Char → Option (Char × List Char)
  | [] => none
  | e :: rest1 =>
    if e = 'u' then decodeU rest1
    else (escCode e).map (fun c1 => (c1, rest1))

/-- JSON string-body parser: consumes up to the closing quote, decoding
escapes with `decodeEsc`.  `fuel` only drives termination. -/
def parseStrAux : Nat → List Char → List Char → Option (List Char × List Char)
  | 0, _, _ => none
  | fuel + 1, cs, acc =>
    match cs with
    | [] => none
    | c :: rest =>
      if c = '"' then some (acc, rest)
      else if c = '\\' then
        match decodeEsc rest with
        | some (c1, rest1) => parseStrAux fuel rest1 (acc ++ [c1])
        | none => none
      else parseStrAux fuel rest (acc ++ [c])

/-- Digit-run reader: accumulates a decimal value, stops at the first
non-digit. -/
def readDigits : List Char → Nat → Nat × List Char
  | c :: cs, acc =>
    if c.isDigit then readDigits cs (acc * 10 + (c.toNat - 48)) else (acc, c :: cs)
  | [], acc => (acc, [])

/-- Digit-run reader that also counts the digits consumed. -/
def readDigitsCnt : List Char → Nat → Nat → Nat × Nat × List Char
  | c :: cs, acc, cnt =>
    if c.isDigit then readDigitsCnt cs (acc * 10 + (c.toNat - 48)) (cnt + 1)
    else (acc, cnt, c :: cs)
  | [], acc, cnt => (acc, cnt, [])

/-- Unsigned JSON number parser: integer digits, optionally a decimal point
followed by at least one digit.  Returns mantissa, scale and the rest. -/
def parseNumAbs (cs : List Char) : Option (Nat × Nat × List Char) :=
  match cs with
  | c :: _ =>
    if c.isDigit then
      match readDigits cs 0 with
      | (ip, rest1) =>
        match rest1 with
        | '.' :: c2 :: rest2 =>
          if c2.isDigit then
            match readDigitsCnt (c2 :: rest2) 0 0 with
            | (fp, cnt, rest3) => some (ip * 10 ^ cnt + fp, cnt, rest3)
          else none
        | _ => some (ip, 0, rest1)
    else none
  | [] => none

/-- Signed JSON number parser. -/
def parseNum (cs : List Char) : Option (JVal × List Char) :=
  match cs with
  | [] => none
  | c :: rest =>
    if c = '-' then (parseNumAbs rest).map (fun p => (JVal.num (-(p.1 : Int)) p.2.1, p.2.2))
    else (parseNumAbs (c :: rest)).map (fun p => (JVal.num p.1 p.2.1, p.2.2))

mutual

/-- JSON value parser (`json.load`, without whitespace skipping — the
serializer side is compact, see the module comment).  `fuel` only drives
termination; `jparse` supplies enough. -/
def parseVal : Nat → List Char → Option (JVal × List Char)
  | 0, _ => none
  | fuel + 1, cs =>
    match cs with
    | [] => none
    | c :: rest =>
      if c = 'n' then
        match rest with
        | 'u' :: 'l' :: 'l' :: rest1 => some (.null, rest1)
        | _ => none
      else if c = 't' then
        match rest with
        | 'r' :: 'u' :: 'e' :: rest1 => some (.bool true, rest1)
        | _ => none
      else if c = 'f' then
        match rest with
        | 'a' :: 'l' :: 's' :: 'e' :: rest1 => some (.bool false, rest1)
        | _ => none
      else if c = '"' then
        (parseStrAux rest.length rest []).map (fun p => (.str (String.mk p.1), p.2))
      else if c = '[' then
        match rest with
        | [] => none
        | c2 :: rest2 =>
          if c2 = ']' then some (.arr [], rest2)
          else (parseElems fuel (c2 :: rest2)).map (fun p => (.arr p.1, p.2))
      else if c = '\x7b' then
        match rest with
        | [] => none
        | c2 :: rest2 =>
          if c2 = '\x7d' then some (.obj [], rest2)
          else (parseMembers fuel (c2 :: rest2)).map (fun p => (.obj p.1, p.2))
      else parseNum (c :: rest)

/-- Elements of a nonempty array, up to and including the closing bracket. -/
def parseElems : Nat → List Char → Option (List JVal × List Char)
  | 0, _ => none
  | fuel + 1, cs =>
    match parseVal fuel cs with
    | some (v, rest) =>
      (match rest with
       | [] => none
       | c :: rest2 =>
         if c = ',' then (parseElems fuel rest2).map (fun p => (v :: p.1, p.2))
         else if c = ']' then some ([v], rest2)
         else none)
    | none => none

/-- Members of a nonempty object, up to and including the closing brace. -/
def parseMembers : Nat → List Char → Option (List (String × JVal) × List Char)
  | 0, _ => none
  | fuel + 1, cs =>
    match cs with
    | [] => none
    | c :: rest =>
      if c = '"' then
        match parseStrAux rest.length rest [] with
        | some (kcs, rest1) =>
          (match rest1 with
           | [] => none
           | c1 :: rest2 =>
             if c1 = ':' then
               (match parseVal fuel rest2 with
                | some (v, rest3) =>
                  (match rest3 with
                   | [] => none
                   | c2 :: rest4 =>
                     if c2 = ',' then
                       (parseMembers fuel rest4).map (fun p => ((String.mk kcs, v) :: p.1, p.2))
                     else if c2 = '\x7d' then some ([(String.mk kcs, v)], rest4)
                     else none)
                | none => none)
             else none)
        | none => none
      else none

end

/-- `json.load` of a whole document: the parse must consume all input. -/
def jparse (s : String) : Option JVal :=
  match parseVal s.data.length s.data with
  | some (v, []) => some v
  | _ => none

/-- `load_all_patient_data` (`app.py` lines 29–32): parse the current
content of `mock_data.json`; a malformed file is a load failure. -/
def load_all_patient_data (file : String) : Option JVal :=
  jparse file

example : jparse (save_all_patient_data (.arr [.null, .bool true, .num (-12) 1,
    .str "a\"b", .obj [("k", .arr [])]])) =
    some (.arr [.null, .bool true, .num (-12) 1, .str "a\"b", .obj [("k", .arr [])]]) := by
  rfl

/-- HTTP-level outcome of a state-touching handler.  Error bodies are
collapsed (the handlers only distinguish status classes). -/
inductive Resp where
  | ok (body : JVal)
  | badRequest
  | notFound
  | serverError

/-- Python `for x in v`: lists yield elements, strings characters, dicts
their keys; other values raise `TypeError`. -/
def pyIter : JVal → Option (List JVal)
  | .arr xs => some xs
  | .str s => some (s.data.map (fun c => .str (String.mk [c])))
  | .obj fs => some (fs.map (fun kv => .str kv.1))
  | _ => none

/-- Python `v == s` against a string literal: `False` across types. -/
def eqStrVal (v : JVal) (s : String) : Bool :=
  match v with
  | .str s' => s' = s
  | _ => false

/-- The linear scan `next((p for p in all_patients if p['id'] == patient_id),
None)` (`app.py` line 80/153/222), also recording the index of the first
match as used by the replace loops.  An element hit before the first match
that is not a dict carrying `'id'` raises (`.error`, surfacing as a 500). -/
def findByIdAux : List JVal → String → Nat → Except Unit (Option (Nat × List (String × JVal)))
  | [], _, _ => .ok none
  | p :: rest, pid, i =>
    match p with
    | .obj fs =>
      match pyGet fs "id" with
      | some v => if eqStrVal v pid then .ok (some (i, fs)) else findByIdAux rest pid (i + 1)
      | none => .error ()
    | _ => .error ()

/-- First patient whose `id` equals `pid`, with its index. -/
def findById (items : List JVal) (pid : String) :
    Except Unit (Option (Nat × List (String × JVal))) :=
  findByIdAux items pid 0

/-- `get_patient_details` (`app.py` lines 75–86). -/
def get_patient_details (patient_id : String) (file : String) : Resp :=
  match load_all_patient_data file with
  | none => .serverError
  | some doc =>
    match pyIter doc with
    | none => .serverError
    | some items =>
      match findById items patient_id with
      | .error _ => .serverError
      | .ok none => .notFound
      | .ok (some (_, fs)) => .ok (.obj fs)

/-- Python `x[0]` as used for the placeholder-image letter: first character
of a string, first element of a list; anything else raises. -/
def pyIndex0 : JVal → Except Unit JVal
  | .str s =>
    match s.data with
    | c :: _ => .ok (.str (String.mk [c]))
    | [] => .error ()
  | .arr (x :: _) => .ok x
  | _ => .error ()

/-- `add_new_patient` (`app.py` lines 88–121).  `uuidTok` stands for
`str(uuid.uuid4())`; the generated id is `"p"` plus its first four
characters.  Returns the response and the new store content. -/
def add_new_patient (uuidTok : String) (body : JVal) (file : String) : Resp × String :=
  match load_all_patient_data file with
  | none => (.serverError, file)
  | some doc =>
    match body with
    | .obj bf =>
      if ¬ truthy (pyGetD bf "name" .null) ∨ ¬ truthy (pyGetD bf "dob" .null) then
        (.badRequest, file)
      else
        let url :=
          if truthy (pyGetD bf "profile_picture_url" .null) then
            Except.ok (pyGetD bf "profile_picture_url" .null)
          else
            (pyIndex0 (pyGetD bf "name" (.str "P"))).map (fun c =>
              JVal.str (String.mk ("https://placehold.co/100x100/c4b5fd/FFFFFF?text=".data ++ pyStr c)))
        match url with
        | .error _ => (.serverError, file)
        | .ok urlv =>
          let newPatient : JVal := .obj
            [("id", .str (String.mk ('p' :: uuidTok.data.take 4))),
             ("name", pyGetD bf "name" .null),
             ("dob", pyGetD bf "dob" .null),
             ("gender", pyGetD bf "gender" .null),
             ("contact", pyGetD bf "contact" .null),
             ("profile_picture_url", urlv),
             ("familyBackground", .obj []),
             ("healthRecords", .arr []),
             ("dentalRecords", .arr []),
             ("visionRecords", .arr []),
             ("medicalReports", .arr [])]
          match doc with
          | .arr patients =>
            (.ok (.obj [("success", .bool true),
                        ("message", .str "Patient added successfully"),
                        ("patient", newPatient)]),
             save_all_patient_data (.arr (patients ++ [newPatient])))
          | _ => (.serverError, file)
    | _ => (.serverError, file)

/-- `update_patient_record` (`app.py` lines 124–146): whole-object
replacement of the first id match by the request body, verbatim.  A
successful id scan forces the loaded document to be a list, so the write
is a positional replacement in it. -/
def update_patient_record (patient_id : String) (body : JVal) (file : String) :
    Resp × String :=
  match load_all_patient_data file with
  | none => (.serverError, file)
  | some doc =>
    match pyIter doc with
    | none => (.serverError, file)
    | some items =>
      match findById items patient_id with
      | .error _ => (.serverError, file)
      | .ok none => (.notFound, file)
      | .ok (some (i, _)) =>
        (.ok (.obj [("success", .bool true),
                    ("message", .str "Patient record updated successfully")]),
         save_all_patient_data (.arr (items.set i body)))

/-- `if k not in patient: patient[k] = []` followed by
`patient[k].append(v)`: start a fresh one-element list when the key is
absent, extend a list value in place, raise on a non-list value. -/
def listFieldAppend (pfs : List (String × JVal)) (k : String) (v : JVal) :
    Except Unit (List (String × JVal)) :=
  match pyGet pfs k with
  | none => .ok (dictSet pfs k (.arr [v]))
  | some (.arr xs) => .ok (dictSet pfs k (.arr (xs ++ [v])))
  | some _ => .error ()

/-- `int(vitals.get(k)) if vitals.get(k) else None` (`app.py` lines
168–170): absent or falsy fields become `None`; a truthy field must parse
as an integer or the whole request fails. -/
def vitalInt (vitf : List (String × JVal)) (k : String) : Except Unit JVal :=
  let v := pyGetD vitf k .null
  if truthy v then
    match pyInt v with
    | some n => .ok (.num n 0)
    | none => .error ()
  else .ok .null

/-- `float(vitals.get('temperature')) if ... else None` (`app.py` line 171). -/
def vitalFloat (vitf : List (String × JVal)) (k : String) : Except Unit JVal :=
  let v := pyGetD vitf k .null
  if truthy v then
    match pyFloat v with
    | some x => .ok x
    | none => .error ()
  else .ok .null

/-- Vitals synchronization (`app.py` lines 163–175): when any value of
`physicalExamination.vitalSigns` (absent treated as `{}`) is truthy, parse
the four numeric fields and append a HealthRecord. -/
def syncVitals (rfs pfs : List (String × JVal)) : Except Unit (List (String × JVal)) :=
  match pyGetD rfs "physicalExamination" (.obj []) with
  | .obj pef =>
    (match pyGetD pef "vitalSigns" (.obj []) with
     | .obj vitf =>
       if (vitf.map Prod.snd).any truthy then
         match vitalInt vitf "bp_systolic" with
         | .error e => .error e
         | .ok sys =>
           match vitalInt vitf "bp_diastolic" with
           | .error e => .error e
           | .ok dia =>
             match vitalInt vitf "pulse" with
             | .error e => .error e
             | .ok pul =>
               match vitalFloat vitf "temperature" with
               | .error e => .error e
               | .ok tmp =>
                 let notes := "Chief Complaint: ".data ++
                   pyStr (pyGetD rfs "chiefComplaint" (.str "N/A")) ++
                   ". Assessment: ".data ++ pyStr (pyGetD rfs "assessment" (.str "N/A"))
                 let hr : JVal := .obj
                   [("date", pyGetD rfs "dateOfVisit" .null),
                    ("systolic_bp", sys),
                    ("diastolic_bp", dia),
                    ("pulse", pul),
                    ("temperature", tmp),
                    ("doctor_notes", .str (String.mk notes))]
                 listFieldAppend pfs "healthRecords" hr
       else .ok pfs
     | _ => .error ())
  | _ => .error ()

/-- Dental synchronization (`app.py` lines 177–182): a truthy
`dentalExamination` value of any type yields a DentalRecord carrying it
verbatim. -/
def syncDental (rfs pfs : List (String × JVal)) : Except Unit (List (String × JVal)) :=
  let dex := pyGetD rfs "dentalExamination" .null
  if truthy dex then
    listFieldAppend pfs "dentalRecords" (.obj
      [("date", pyGetD rfs "dateOfVisit" .null),
       ("procedure", .str "Clinical Examination"),
       ("dentist_notes", dex)])
  else .ok pfs

/-- Vision synchronization (`app.py` lines 184–194). -/
def syncVision (rfs pfs : List (String × JVal)) : Except Unit (List (String × JVal)) :=
  match pyGetD rfs "visionExamination" (.obj []) with
  | .obj vxf =>
    if (vxf.map Prod.snd).any truthy then
      listFieldAppend pfs "visionRecords" (.obj
        [("date", pyGetD rfs "dateOfVisit" .null),
         ("right_eye_sph", pyGetD vxf "visualAcuity_rightEye" (.str "N/A")),
         ("left_eye_sph", pyGetD vxf "visualAcuity_leftEye" (.str "N/A")),
         ("optometrist_notes", .str (String.mk ("Fundus Exam: ".data ++
           pyStr (pyGetD vxf "fundusExam" (.str "N/A")) ++
           ". Other Findings: ".data ++ pyStr (pyGetD vxf "otherFindings" (.str "N/A")))))])
    else .ok pfs
  | _ => .error ()

/-- `report_data['reportId'] = str(uuid.uuid4())` (`app.py` line 158). -/
def withReportId (reportId : String) (rfs : List (String × JVal)) :
    List (String × JVal) :=
  dictSet rfs "reportId" (.str reportId)

/-- The report synchronizer (`app.py` lines 158–194): attach the generated
`reportId`, append the report to `medicalReports`, then derive the three
record types.  Any raise aborts the whole chain. -/
def syncReport (reportId : String) (report : JVal) (pfs : List (String × JVal)) :
    Except Unit (List (String × JVal)) :=
  match report with
  | .obj rfs0 =>
    match listFieldAppend pfs "medicalReports" (.obj (withReportId reportId rfs0)) with
    | .error e => .error e
    | .ok pfs1 =>
      match syncVitals (withReportId reportId rfs0) pfs1 with
      | .error e => .error e
      | .ok pfs2 =>
        match syncDental (withReportId reportId rfs0) pfs2 with
        | .error e => .error e
        | .ok pfs3 => syncVision (withReportId reportId rfs0) pfs3
  | _ => .error ()

/-- `add_medical_report` (`app.py` lines 148–208).  `reportId` stands for
`str(uuid.uuid4())`.  Returns the response and the new store content; every
failure path leaves the store untouched, because the single
`save_all_patient_data` call is the last step.  As in
`update_patient_record`, a successful id scan forces the document to be a
list, and the replace loop hits the same first matching index. -/
def add_medical_report (reportId : String) (patient_id : String) (report : JVal)
    (file : String) : Resp × String :=
  match load_all_patient_data file with
  | none => (.serverError, file)
  | some doc =>
    match pyIter doc with
    | none => (.serverError, file)
    | some items =>
      match findById items patient_id with
      | .error _ => (.serverError, file)
      | .ok none => (.notFound, file)
      | .ok (some (i, pfs)) =>
        match syncReport reportId report pfs with
        | .error _ => (.serverError, file)
        | .ok pfs' =>
          (.ok (.obj [("success", .bool true),
                      ("message", .str "Medical report added and all sections synced.")]),
           save_all_patient_data (.arr (items.set i (.obj pfs'))))

/-- Outcome of the summary handler.  `canned` is the short-circuit answer
produced without contacting the external completion service; `callService`
records that the service would be invoked, and with which prompt. -/
inductive SummaryResult where
  | unconfigured
  | serverError
  | notFound
  | canned (text : String)
  | callService (prompt : String)

/-- Whether a summary outcome invokes the external completion service. -/
def invokesService : SummaryResult → Bool
  | .callService _ => true
  | _ => false

/-- The canned `f"No recent {section} records available to summarize."`. -/
def cannedMsg (sect : JVal) : String :=
  String.mk ("No recent ".data ++ pyStr sect ++ " records available to summarize.".data)

/-- The prompt template of `get_ai_summary` (`app.py` lines 244–250). -/
def promptText (sect : JVal) (notes : String) : String :=
  String.mk ("\n        Act as a medical AI assistant. Summarize the following clinical notes for the '".data
    ++ pyStr sect
    ++ "' section into 2-3 concise bullet points for a doctor.\n        Focus on the most critical findings, diagnoses, or trends.\n\n        Clinical Notes:\n        ".data
    ++ notes.data ++ "\n        ".data)

/-- `patient['medicalReports'][-1]` for a truthy value: last element of a
list, last character of a string; dicts (string keys, so `-1` misses),
numbers and booleans raise. -/
def latestOf : JVal → Except Unit JVal
  | .arr xs =>
    match xs.getLast? with
    | some x => .ok x
    | none => .error ()
  | .str s =>
    match s.data.getLast? with
    | some c => .ok (.str (String.mk [c]))
    | none => .error ()
  | _ => .error ()

/-- The emptiness gate and dispatch at `app.py` lines 241–252:
`if not notes_to_summarize or notes_to_summarize.strip() in ["", "{}", "null"]`
short-circuits with the canned message; otherwise `.strip()` demands a
string (anything else raises) and the prompt goes to the external service. -/
def summaryFinish (sect : JVal) (notes : JVal) : SummaryResult :=
  if ¬ truthy notes then .canned (cannedMsg sect)
  else
    match notes with
    | .str s =>
      let t := pyStrip s.data
      if t = [] ∨ t = ['\x7b', '\x7d'] ∨ t = "null".data then .canned (cannedMsg sect)
      else .callService (promptText sect s)
    | _ => .serverError

/-- `get_ai_summary` (`app.py` lines 212–255).  `configured` is whether the
Gemini client was configured at startup (`model` is not `None`).  The
fall-back branch reaches `patient.get(record_map.get(section, []))`; for a
section tag other than the three known strings, `record_map.get` either
raises (unhashable tag) or yields the default `[]`, on which `patient.get`
raises — both surface as a 500. -/
def get_ai_summary (configured : Bool) (patient_id : String) (body : JVal)
    (file : String) : SummaryResult :=
  if ¬ configured then .unconfigured
  else
    match body with
    | .obj bf =>
      let sect := pyGetD bf "section" (.str "general")
      match load_all_patient_data file with
      | none => .serverError
      | some doc =>
        match pyIter doc with
        | none => .serverError
        | some items =>
          match findById items patient_id with
          | .error _ => .serverError
          | .ok none => .notFound
          | .ok (some (_, pf)) =>
            if truthy (pyGetD pf "medicalReports" .null) then
              match latestOf (pyGetD pf "medicalReports" .null) with
              | .error _ => .serverError
              | .ok latest =>
                if eqStrVal sect "health" then
                  match latest with
                  | .obj lf =>
                    (match pyGetD lf "assessment" (.str "") with
                     | .str a =>
                       summaryFinish sect (.str (String.mk
                         (jser (pyGetD lf "physicalExamination" .null) ++ '\n' :: a.data)))
                     | _ => .serverError)
                  | _ => .serverError
                else if eqStrVal sect "dental" then
                  match latest with
                  | .obj lf => summaryFinish sect (pyGetD lf "dentalExamination" (.str ""))
                  | _ => .serverError
                else if eqStrVal sect "vision" then
                  match latest with
                  | .obj lf =>
                    summaryFinish sect (.str (String.mk
                      (jser (pyGetD lf "visionExamination" .null))))
                  | _ => .serverError
                else summaryFinish sect (.str "")
            else
              if eqStrVal sect "health" then
                summaryFinish sect (.str (String.mk (jser (pyGetD pf "healthRecords" .null))))
              else if eqStrVal sect "dental" then
                summaryFinish sect (.str (String.mk (jser (pyGetD pf "dentalRecords" .null))))
              else if eqStrVal sect "vision" then
                summaryFinish sect (.str (String.mk (jser (pyGetD pf "visionRecords" .null))))
              else .serverError
    | _ => .serverError

/-! ### Auxiliary definitions for the verification -/

/-- A continuation at which a number parse stops cleanly. -/
def numStops : List Char → Bool
  | [] => true
  | c :: _ => !(c.isDigit || c = '.')

/-- The head of the continuation is not a digit (or it is empty). -/
def headNotDigit : List Char → Prop
  | [] => True
  | c :: _ => c.isDigit = false

mutual

/-- Fuel sufficient for `parseVal` to parse the serialization of `v`. -/
def fuelV : JVal → Nat
  | .arr xs => fuelElems xs + 1
  | .obj fs => fuelMembers fs + 1
  | _ => 1

/-- Fuel sufficient for `parseElems` on the remaining elements. -/
def fuelElems : List JVal → Nat
  | [] => 1
  | x :: xs => max (fuelV x) (fuelElems xs) + 1

/-- Fuel sufficient for `parseMembers` on the remaining members. -/
def fuelMembers : List (String × JVal) → Nat
  | [] => 1
  | (_, v) :: fs => max (fuelV v) (fuelMembers fs) + 1

end

/-- The list stored under a record-sequence key (`[]` when absent). -/
def recList : Option JVal → List JVal
  | some (.arr xs) => xs
  | _ => []

/-- Whether a stored record-sequence value can be appended to (absent or a
list; anything else makes `.append` raise). -/
def isListField : Option JVal → Bool
  | none => true
  | some (.arr _) => true
  | _ => false

/-- The `any(vitals.values())` gate of the vitals synchronization, as read
off the submitted report (`app.py` lines 164–165); `false` also when one of
the intermediate values is not a mapping (those runs raise instead). -/
def vitalsTruthy (rfs : List (String × JVal)) : Bool :=
  match pyGetD rfs "physicalExamination" (.obj []) with
  | .obj pef =>
    (match pyGetD pef "vitalSigns" (.obj []) with
     | .obj vitf => (vitf.map Prod.snd).any truthy
     | _ => false)
  | _ => false

/-- The `if dental_exam:` gate (`app.py` lines 178–179). -/
def dentalTruthy (rfs : List (String × JVal)) : Bool :=
  truthy (pyGetD rfs "dentalExamination" .null)

/-- The `any(vision_exam.values())` gate (`app.py` lines 185–186). -/
def visionTruthy (rfs : List (String × JVal)) : Bool :=
  match pyGetD rfs "visionExamination" (.obj []) with
  | .obj vxf => (vxf.map Prod.snd).any truthy
  | _ => false

/-- A report whose `vitalSigns.bp_systolic` is the non-numeric string
`"abc"` (`int("abc")` raises, `app.py` line 168). -/
def reportAbc : JVal :=
  .obj [("physicalExamination", .obj
    [("vitalSigns", .obj [("bp_systolic", .str "abc")])])]

/-- A minimal stored patient for the concrete scenarios. -/
def patientAbc : List (String × JVal) :=
  [("id", .str "p1"), ("medicalReports", .arr [])]

/-- A stored patient with no medical reports and an empty `dentalRecords`
sequence. -/
def patientEmptyDental : List (String × JVal) :=
  [("id", .str "p1"), ("medicalReports", .arr []), ("dentalRecords", .arr [])]

/-- A stored patient with all four record sequences present and empty. -/
def patientBlank : List (String × JVal) :=
  [("id", .str "p1"), ("healthRecords", .arr []), ("dentalRecords", .arr []),
   ("visionRecords", .arr []), ("medicalReports", .arr [])]

/-- A report whose only populated field is
`physicalExamination.vitalSigns.pulse`, a numeric string. -/
def reportPulseOnly : JVal :=
  .obj [("physicalExamination", .obj [("vitalSigns", .obj [("pulse", .str "72")])])]

/-- A stored patient with one prior medical report. -/
def patientOneReport : List (String × JVal) :=
  [("id", .str "p1"), ("healthRecords", .arr []), ("dentalRecords", .arr []),
   ("visionRecords", .arr []), ("medicalReports", .arr [.obj [("reportId", .str "r0")]])]

/-- A report with an empty `vitalSigns` mapping, empty `dentalExamination`
and empty `visionExamination`. -/
def reportAllEmpty : JVal :=
  .obj [("physicalExamination", .obj [("vitalSigns", .obj [])]),
        ("dentalExamination", .obj []),
        ("visionExamination", .obj [])]

/-- A one-field stored patient for the frame witness. -/
def patientIdOnly : List (String × JVal) := [("id", .str "p1")]

/-! ### Round-trip of the document-store serialization -/

theorem digitsVal_foldl (b : List Char) : ∀ acc : Nat,
    b.foldl (fun a c => a * 10 + (c.toNat - 48)) acc = acc * 10 ^ b.length + digitsVal b := by
  induction b with
  | nil => intro acc; simp [digitsVal]
  | cons c cs ih =>
    intro acc
    simp only [List.foldl_cons, List.length_cons, digitsVal] at *
    rw [ih, ih (0 * 10 + (c.toNat - 48))]
    ring

theorem digitsVal_append (a b : List Char) :
    digitsVal (a ++ b) = digitsVal a * 10 ^ b.length + digitsVal b := by
  unfold digitsVal
  rw [List.foldl_append]
  exact digitsVal_foldl b _

theorem digitsVal_cons (c : Char) (cs : List Char) :
    digitsVal (c :: cs) = (c.toNat - 48) * 10 ^ cs.length + digitsVal cs := by
  have h2 : digitsVal (c :: cs) =
      cs.foldl (fun a c => a * 10 + (c.toNat - 48)) (0 * 10 + (c.toNat - 48)) := rfl
  rw [h2, digitsVal_foldl]
  ring

theorem digitsVal_replicate_zero (k : Nat) (ds : List Char) :
    digitsVal (List.replicate k '0' ++ ds) = digitsVal ds := by
  induction k with
  | zero => simp
  | succ m ih =>
    rw [List.replicate_succ, List.cons_append, digitsVal_cons, ih]
    have h0 : '0'.toNat - 48 = 0 := by decide
    rw [h0]
    ring

theorem headNotDigit_cons {c : Char} {r : List Char} (h : c.isDigit = false) :
    headNotDigit (c :: r) := h

theorem readDigits_stop (cs : List Char) (acc : Nat) (h : headNotDigit cs) :
    readDigits cs acc = (acc, cs) := by
  match cs with
  | [] => rfl
  | c :: rest =>
    have hc : c.isDigit = false := h
    simp only [readDigits, hc, Bool.false_eq_true, if_false]

theorem readDigits_run (ds : List Char) : ∀ (rest : List Char) (acc : Nat),
    ds.all Char.isDigit = true → headNotDigit rest →
    readDigits (ds ++ rest) acc = (acc * 10 ^ ds.length + digitsVal ds, rest) := by
  induction ds with
  | nil =>
    intro rest acc _ hrest
    simpa [digitsVal] using readDigits_stop rest acc hrest
  | cons c cs ih =>
    intro rest acc hall hrest
    simp only [List.all_cons, Bool.and_eq_true] at hall
    simp only [List.cons_append, readDigits, hall.1, if_true, List.append_eq]
    rw [ih rest _ hall.2 hrest]
    simp only [Prod.mk.injEq, and_true]
    rw [digitsVal_cons]
    simp only [List.length_cons]
    ring

theorem readDigitsCnt_run (ds : List Char) : ∀ (rest : List Char) (acc cnt : Nat),
    ds.all Char.isDigit = true → headNotDigit rest →
    readDigitsCnt (ds ++ rest) acc cnt =
      (acc * 10 ^ ds.length + digitsVal ds, cnt + ds.length, rest) := by
  induction ds with
  | nil =>
    intro rest acc cnt _ hrest
    match rest with
    | [] => simp [readDigitsCnt, digitsVal]
    | c :: rest2 =>
      have hc : c.isDigit = false := hrest
      simp [readDigitsCnt, hc, digitsVal]
  | cons c cs ih =>
    intro rest acc cnt hall hrest
    simp only [List.all_cons, Bool.and_eq_true] at hall
    simp only [List.cons_append, readDigitsCnt, hall.1, if_true, List.append_eq]
    rw [ih rest _ _ hall.2 hrest]
    have harith : (acc * 10 + (c.toNat - 48)) * 10 ^ cs.length + digitsVal cs
        = acc * 10 ^ (c :: cs).length + digitsVal (c :: cs) := by
      rw [digitsVal_cons]
      simp only [List.length_cons]
      ring
    have hcnt : cnt + 1 + cs.length = cnt + (c :: cs).length := by
      simp only [List.length_cons]
      omega
    rw [harith, hcnt]

theorem digitChar_spec (d : Nat) (h : d < 10) :
    (Nat.digitChar d).isDigit = true ∧ (Nat.digitChar d).toNat - 48 = d := by
  interval_cases d <;> simp [Nat.digitChar]

theorem natDigitsAux_zero (fuel : Nat) : natDigitsAux fuel 0 = [] := by
  cases fuel <;> simp [natDigitsAux]

theorem natDigitsAux_spec (fuel : Nat) : ∀ n : Nat, n ≤ fuel → 0 < n →
    (natDigitsAux fuel n).all Char.isDigit = true ∧ natDigitsAux fuel n ≠ [] ∧
      digitsVal (natDigitsAux fuel n) = n := by
  induction fuel with
  | zero => intro n h h0; omega
  | succ f ih =>
    intro n h h0
    have hmod : n % 10 < 10 := Nat.mod_lt _ (by norm_num)
    obtain ⟨hdig, hdval⟩ := digitChar_spec (n % 10) hmod
    unfold natDigitsAux
    rw [if_neg (by omega)]
    by_cases hq : n / 10 = 0
    · rw [hq, natDigitsAux_zero, List.nil_append]
      refine ⟨by simp [hdig], by simp, ?_⟩
      have heq : n % 10 = n := by omega
      rw [heq] at hdval
      rw [heq]
      simp [digitsVal_cons, digitsVal, hdval]
    · have hlt : n / 10 < n := Nat.div_lt_self h0 (by norm_num)
      obtain ⟨hall, hne, hval⟩ := ih (n / 10) (by omega) (Nat.pos_of_ne_zero hq)
      refine ⟨?_, by simp, ?_⟩
      · rw [List.all_append]
        simp [hall, hdig]
      · rw [digitsVal_append, hval]
        simp [digitsVal_cons, digitsVal, hdval]
        omega

theorem natChars_spec (n : Nat) :
    (natChars n).all Char.isDigit = true ∧ natChars n ≠ [] ∧ digitsVal (natChars n) = n := by
  unfold natChars
  by_cases h : n = 0
  · subst h; refine ⟨by decide, by simp, by decide⟩
  · simp only [h, if_false]
    exact natDigitsAux_spec n n le_rfl (Nat.pos_of_ne_zero h)

theorem digit_ne {c : Char} (h : c.isDigit = true) (d : Char) (hd : d.isDigit = false) :
    c ≠ d := by
  intro heq
  subst heq
  rw [h] at hd
  cases hd

theorem numStops_head {c : Char} {r : List Char} (h : numStops (c :: r) = true) :
    c.isDigit = false ∧ c ≠ '.' := by
  unfold numStops at h
  simp only [Bool.not_eq_eq_eq_not, Bool.not_true, Bool.or_eq_false_iff] at h
  refine ⟨h.1, ?_⟩
  intro heq
  subst heq
  simpa using h.2

theorem numStops_mdigit {rest : List Char} (h : numStops rest = true) :
    headNotDigit rest := by
  cases rest with
  | nil => trivial
  | cons c r => exact headNotDigit_cons (numStops_head h).1

theorem parseNumAbs_natChars (n : Nat) (rest : List Char) (h : numStops rest = true) :
    parseNumAbs (natChars n ++ rest) = some (n, 0, rest) := by
  obtain ⟨hall, hne, hval⟩ := natChars_spec n
  cases hnc : natChars n with
  | nil => exact absurd hnc hne
  | cons d ds =>
    rw [hnc] at hall hval
    have hd : d.isDigit = true := by
      simp only [List.all_cons, Bool.and_eq_true] at hall
      exact hall.1
    rw [List.cons_append]
    unfold parseNumAbs
    simp only [hd, if_true]
    rw [← List.cons_append, readDigits_run (d :: ds) rest 0 hall (numStops_mdigit h)]
    simp only [zero_mul, zero_add, hval]
    split
    · exact absurd rfl (numStops_head h).2
    · rfl

theorem decChars_shape (a s : Nat) : ∃ tk dr, decChars a (s + 1) = tk ++ '.' :: dr ∧
    tk ≠ [] ∧ dr ≠ [] ∧ tk.all Char.isDigit = true ∧ dr.all Char.isDigit = true ∧
    dr.length = s + 1 ∧ digitsVal tk * 10 ^ (s + 1) + digitsVal dr = a := by
  obtain ⟨hall, hne, hval⟩ := natChars_spec a
  have hL : 0 < (natChars a).length := List.length_pos.mpr hne
  set ds := natChars a with hds
  set padded := List.replicate (s + 1 + 1 - ds.length) '0' ++ ds with hpad
  have hplen : s + 2 ≤ padded.length := by
    rw [hpad, List.length_append, List.length_replicate]
    omega
  have hallp : padded.all Char.isDigit = true := by
    rw [hpad, List.all_append, Bool.and_eq_true]
    refine ⟨?_, hall⟩
    simp only [List.all_eq_true, List.mem_replicate]
    intro c hc
    rw [hc.2]
    decide
  have hvalp : digitsVal padded = a := by
    rw [hpad, digitsVal_replicate_zero, hval]
  have hsplit := List.take_append_drop (padded.length - (s + 1)) padded
  have htl : (padded.take (padded.length - (s + 1))).length = padded.length - (s + 1) := by
    rw [List.length_take]
    omega
  have hdl : (padded.drop (padded.length - (s + 1))).length = s + 1 := by
    rw [List.length_drop]
    omega
  have halls : (padded.take (padded.length - (s + 1))).all Char.isDigit = true ∧
      (padded.drop (padded.length - (s + 1))).all Char.isDigit = true := by
    rw [← Bool.and_eq_true, ← List.all_append, hsplit]
    exact hallp
  refine ⟨padded.take (padded.length - (s + 1)), padded.drop (padded.length - (s + 1)),
    rfl, ?_, ?_, halls.1, halls.2, hdl, ?_⟩
  · intro hnil
    rw [hnil] at htl
    simp at htl
    omega
  · intro hnil
    rw [hnil] at hdl
    simp at hdl
  · calc digitsVal (padded.take (padded.length - (s + 1))) * 10 ^ (s + 1) +
          digitsVal (padded.drop (padded.length - (s + 1)))
        = digitsVal (padded.take (padded.length - (s + 1))) *
            10 ^ (padded.drop (padded.length - (s + 1))).length +
            digitsVal (padded.drop (padded.length - (s + 1))) := by rw [hdl]
      _ = digitsVal (padded.take (padded.length - (s + 1)) ++
            padded.drop (padded.length - (s + 1))) := (digitsVal_append _ _).symm
      _ = digitsVal padded := by rw [hsplit]
      _ = a := hvalp

theorem parseNumAbs_decChars (a s : Nat) (rest : List Char) (h : numStops rest = true) :
    parseNumAbs (decChars a (s + 1) ++ rest) = some (a, s + 1, rest) := by
  obtain ⟨tk, dr, hshape, htkne, hdrne, htkall, hdrall, hdrlen, hcomb⟩ := decChars_shape a s
  cases tk with
  | nil => exact absurd rfl htkne
  | cons t0 ts =>
    cases dr with
    | nil => exact absurd rfl hdrne
    | cons f0 fs =>
      have ht0 : t0.isDigit = true := by
        simp only [List.all_cons, Bool.and_eq_true] at htkall
        exact htkall.1
      have hf0 : f0.isDigit = true := by
        simp only [List.all_cons, Bool.and_eq_true] at hdrall
        exact hdrall.1
      rw [hshape]
      have hflat : ((t0 :: ts) ++ '.' :: (f0 :: fs)) ++ rest
          = t0 :: (ts ++ ('.' :: ((f0 :: fs) ++ rest))) := by simp
      rw [hflat]
      unfold parseNumAbs
      simp only [ht0, if_true]
      rw [← List.cons_append,
        readDigits_run (t0 :: ts) _ 0 htkall (headNotDigit_cons (by decide))]
      simp only [zero_mul, zero_add, List.cons_append, hf0, if_true]
      rw [← List.cons_append, readDigitsCnt_run (f0 :: fs) rest 0 0 hdrall (numStops_mdigit h)]
      simp only [zero_mul, zero_add, Nat.zero_add]
      rw [hdrlen, hcomb]

theorem parseNum_numChars (m : Int) (scale : Nat) (rest : List Char) (h : numStops rest = true) :
    parseNum (numChars m scale ++ rest) = some (.num m scale, rest) := by
  cases scale with
  | zero =>
    show parseNum (intChars m ++ rest) = _
    unfold intChars
    by_cases hm : m < 0
    · simp only [hm, if_true, List.cons_append]
      simp only [parseNum]
      rw [if_pos trivial, parseNumAbs_natChars m.natAbs rest h]
      simp only [Option.map_some']
      have hma : -(m.natAbs : Int) = m := by omega
      rw [hma]
    · simp only [hm, if_false]
      obtain ⟨hall, hne, -⟩ := natChars_spec m.natAbs
      cases hnc : natChars m.natAbs with
      | nil => exact absurd hnc hne
      | cons d ds =>
        rw [hnc] at hall
        have hd : d.isDigit = true := by
          simp only [List.all_cons, Bool.and_eq_true] at hall
          exact hall.1
        rw [List.cons_append]
        simp only [parseNum]
        rw [if_neg (digit_ne hd '-' (by decide)), ← List.cons_append, ← hnc,
          parseNumAbs_natChars m.natAbs rest h]
        simp only [Option.map_some']
        have hma : (m.natAbs : Int) = m := by omega
        rw [hma]
  | succ s =>
    show parseNum (((if m < 0 then ['-'] else []) ++ decChars m.natAbs (s + 1)) ++ rest) = _
    by_cases hm : m < 0
    · simp only [hm, if_true, List.cons_append, List.nil_append, List.append_assoc]
      simp only [parseNum]
      rw [if_pos trivial, parseNumAbs_decChars m.natAbs s rest h]
      simp only [Option.map_some']
      have hma : -(m.natAbs : Int) = m := by omega
      rw [hma]
    · simp only [hm, if_false, List.nil_append]
      obtain ⟨tk, dr, hshape, htkne, -, htkall, -, -, -⟩ := decChars_shape m.natAbs s
      cases tk with
      | nil => exact absurd rfl htkne
      | cons t0 ts =>
        have ht0 : t0.isDigit = true := by
          simp only [List.all_cons, Bool.and_eq_true] at htkall
          exact htkall.1
        have hcons : decChars m.natAbs (s + 1) ++ rest =
            t0 :: (ts ++ '.' :: dr ++ rest) := by
          rw [hshape]
          simp
        rw [hcons]
        simp only [parseNum]
        rw [if_neg (digit_ne ht0 '-' (by decide)), ← hcons,
          parseNumAbs_decChars m.natAbs s rest h]
        simp only [Option.map_some']
        have hma : (m.natAbs : Int) = m := by omega
        rw [hma]

theorem char_valid_nat (c : Char) :
    c.toNat < 0xD800 ∨ (0xE000 ≤ c.toNat ∧ c.toNat < 0x110000) := by
  rcases c.valid with h | ⟨h1, h2⟩
  · left
    exact h
  · right
    exact ⟨h1, h2⟩

theorem hexVal_digitChar : ∀ d : Nat, d < 16 → hexVal (Nat.digitChar d) = some d := by
  decide

theorem hex4Val_hex4 (n : Nat) (h : n < 65536) :
    hex4Val (Nat.digitChar (n / 4096 % 16)) (Nat.digitChar (n / 256 % 16))
      (Nat.digitChar (n / 16 % 16)) (Nat.digitChar (n % 16)) = some n := by
  unfold hex4Val
  rw [hexVal_digitChar _ (by omega), hexVal_digitChar _ (by omega),
    hexVal_digitChar _ (by omega), hexVal_digitChar _ (by omega)]
  simp only [Option.bind_eq_bind, Option.some_bind]
  congr 1
  omega

theorem hex4_eq (n : Nat) : hex4 n =
    [Nat.digitChar (n / 4096 % 16), Nat.digitChar (n / 256 % 16),
     Nat.digitChar (n / 16 % 16), Nat.digitChar (n % 16)] := rfl

theorem decodeU_hex4 (n : Nat) (h : n < 65536) (hok : n < 0xD800 ∨ 0xE000 ≤ n)
    (rest : List Char) :
    decodeU (hex4 n ++ rest) = some (Char.ofNat n, rest) := by
  rw [hex4_eq]
  simp only [List.cons_append, List.nil_append, decodeU]
  rw [hex4Val_hex4 n h]
  simp only [Option.some_bind]
  rw [if_pos hok]

theorem encChar_spec (c : Char) :
    (encChar c = [c] ∧ c ≠ '"' ∧ c ≠ '\\') ∨
    (∃ tail, encChar c = '\\' :: tail ∧
      ∀ rest, decodeEsc (tail ++ rest) = some (c, rest)) := by
  by_cases h1 : c = '"'
  · subst h1
    exact Or.inr ⟨['"'], rfl, fun rest => by simp [decodeEsc, escCode]⟩
  by_cases h2 : c = '\\'
  · subst h2
    exact Or.inr ⟨['\\'], rfl, fun rest => by simp [decodeEsc, escCode]⟩
  by_cases h3 : c = '\n'
  · subst h3
    exact Or.inr ⟨['n'], rfl, fun rest => by simp [decodeEsc, escCode]⟩
  by_cases h4 : c = '\r'
  · subst h4
    exact Or.inr ⟨['r'], rfl, fun rest => by simp [decodeEsc, escCode]⟩
  by_cases h5 : c = '\t'
  · subst h5
    exact Or.inr ⟨['t'], rfl, fun rest => by simp [decodeEsc, escCode]⟩
  by_cases h6 : c = '\x08'
  · subst h6
    exact Or.inr ⟨['b'], rfl, fun rest => by simp [decodeEsc, escCode]⟩
  by_cases h7 : c = '\x0c'
  · subst h7
    exact Or.inr ⟨['f'], rfl, fun rest => by simp [decodeEsc, escCode]⟩
  by_cases h8 : c.toNat < 0x20 ∨ 0x7F ≤ c.toNat
  · right
    have henc : encChar c = if c.toNat < 0x10000 then uEsc c.toNat
        else uEsc (0xD800 + (c.toNat - 0x10000) / 1024) ++
          uEsc (0xDC00 + (c.toNat - 0x10000) % 1024) := by
      unfold encChar
      rw [if_neg h1, if_neg h2, if_neg h3, if_neg h4, if_neg h5, if_neg h6, if_neg h7,
        if_pos h8]
    by_cases h10 : c.toNat < 0x10000
    · refine ⟨'u' :: hex4 c.toNat, by rw [henc, if_pos h10]; rfl, fun rest => ?_⟩
      have hok : c.toNat < 0xD800 ∨ 0xE000 ≤ c.toNat := by
        rcases char_valid_nat c with h | ⟨h, -⟩
        · exact Or.inl h
        · exact Or.inr h
      show decodeEsc ('u' :: (hex4 c.toNat ++ rest)) = some (c, rest)
      simp only [decodeEsc]
      rw [if_pos trivial, decodeU_hex4 c.toNat h10 hok, Char.ofNat_toNat]
    · have hval : 0xE000 ≤ c.toNat ∧ c.toNat < 0x110000 := by
        rcases char_valid_nat c with h | h
        · omega
        · exact h
      have hu1 : 0xD800 + (c.toNat - 0x10000) / 1024 < 65536 := by omega
      have hu2 : 0xDC00 + (c.toNat - 0x10000) % 1024 < 65536 := by
        have := Nat.mod_lt (c.toNat - 0x10000) (show 0 < 1024 by norm_num)
        omega
      refine ⟨'u' :: (hex4 (0xD800 + (c.toNat - 0x10000) / 1024) ++
        uEsc (0xDC00 + (c.toNat - 0x10000) % 1024)), ?_, fun rest => ?_⟩
      · rw [henc, if_neg h10]
        unfold uEsc
        simp
      · show decodeEsc ('u' :: ((hex4 (0xD800 + (c.toNat - 0x10000) / 1024) ++
          uEsc (0xDC00 + (c.toNat - 0x10000) % 1024)) ++ rest)) = some (c, rest)
        simp only [decodeEsc]
        rw [if_pos trivial]
        rw [hex4_eq (0xD800 + (c.toNat - 0x10000) / 1024)]
        simp only [List.cons_append, List.nil_append, List.append_assoc, decodeU]
        rw [hex4Val_hex4 _ hu1, Option.some_bind]
        have hdiv : (c.toNat - 0x10000) / 1024 < 1024 := by omega
        rw [if_neg (by omega), if_pos (by omega)]
        unfold uEsc
        rw [hex4_eq (0xDC00 + (c.toNat - 0x10000) % 1024)]
        simp only [List.cons_append, List.nil_append, decodeLow]
        rw [if_pos ⟨trivial, trivial⟩, hex4Val_hex4 _ hu2, Option.some_bind]
        rw [if_pos (by omega)]
        have harg : 0x10000 + (0xD800 + (c.toNat - 0x10000) / 1024 - 0xD800) * 1024 +
            (0xDC00 + (c.toNat - 0x10000) % 1024 - 0xDC00) = c.toNat := by omega
        rw [harg, Char.ofNat_toNat]
  · left
    refine ⟨?_, h1, h2⟩
    unfold encChar
    rw [if_neg h1, if_neg h2, if_neg h3, if_neg h4, if_neg h5, if_neg h6, if_neg h7,
      if_neg h8]

theorem encChar_ne_nil (c : Char) : encChar c ≠ [] := by
  rcases encChar_spec c with ⟨h, -, -⟩ | ⟨tail, h, -⟩ <;> simp [h]

theorem escChars_length (cs : List Char) : cs.length ≤ (escChars cs).length := by
  induction cs with
  | nil => simp [escChars]
  | cons c cs ih =>
    have h1 : 1 ≤ (encChar c).length := by
      cases henc : encChar c with
      | nil => exact absurd henc (encChar_ne_nil c)
      | cons a tl => simp
    simp only [escChars, List.length_append, List.length_cons]
    omega

theorem parseStrAux_enc (cs : List Char) : ∀ (fuel : Nat) (acc rest : List Char),
    cs.length + 1 ≤ fuel →
    parseStrAux fuel (escChars cs ++ '"' :: rest) acc = some (acc ++ cs, rest) := by
  induction cs with
  | nil =>
    intro fuel acc rest hf
    match fuel, hf with
    | f + 1, _ => simp [parseStrAux, escChars]
  | cons c cs ih =>
    intro fuel acc rest hf
    match fuel, hf with
    | f + 1, hf =>
      have hf' : cs.length + 1 ≤ f := by
        simp only [List.length_cons] at hf
        omega
      rcases encChar_spec c with ⟨hplain, hq, hbs⟩ | ⟨tail, henc, hdec⟩
      · show parseStrAux (f + 1) ((encChar c ++ escChars cs) ++ '"' :: rest) acc = _
        rw [hplain]
        simp only [List.cons_append, List.nil_append, parseStrAux]
        rw [if_neg hq, if_neg hbs, ih f (acc ++ [c]) rest hf']
        simp
      · show parseStrAux (f + 1) ((encChar c ++ escChars cs) ++ '"' :: rest) acc = _
        rw [henc]
        simp only [List.cons_append, List.append_assoc, parseStrAux]
        rw [if_pos trivial, hdec (escChars cs ++ '"' :: rest)]
        show parseStrAux f (escChars cs ++ '"' :: rest) (acc ++ [c]) = _
        rw [ih f (acc ++ [c]) rest hf']
        simp

theorem fuelV_pos (v : JVal) : 1 ≤ fuelV v := by
  cases v <;> simp [fuelV]

theorem fuelElems_pos (xs : List JVal) : 1 ≤ fuelElems xs := by
  cases xs <;> simp [fuelElems]

theorem fuelMembers_pos (fs : List (String × JVal)) : 1 ≤ fuelMembers fs := by
  cases fs with
  | nil => simp [fuelMembers]
  | cons f fs => obtain ⟨k, v⟩ := f; simp [fuelMembers]

theorem numChars_shape (m : Int) (scale : Nat) :
    ∃ c tl, numChars m scale = c :: tl ∧ (c.isDigit = true ∨ c = '-') := by
  cases scale with
  | zero =>
    show ∃ c tl, intChars m = c :: tl ∧ _
    unfold intChars
    by_cases hm : m < 0
    · rw [if_pos hm]
      exact ⟨'-', natChars m.natAbs, rfl, Or.inr rfl⟩
    · rw [if_neg hm]
      obtain ⟨hall, hne, -⟩ := natChars_spec m.natAbs
      cases hnc : natChars m.natAbs with
      | nil => exact absurd hnc hne
      | cons d ds =>
        rw [hnc] at hall
        simp only [List.all_cons, Bool.and_eq_true] at hall
        exact ⟨d, ds, rfl, Or.inl hall.1⟩
  | succ s =>
    simp only [numChars]
    by_cases hm : m < 0
    · rw [if_pos hm]
      exact ⟨'-', decChars m.natAbs (s + 1), rfl, Or.inr rfl⟩
    · rw [if_neg hm]
      obtain ⟨tk, dr, hshape, htkne, -, htkall, -, -, -⟩ := decChars_shape m.natAbs s
      cases tk with
      | nil => exact absurd rfl htkne
      | cons t0 ts =>
        simp only [List.all_cons, Bool.and_eq_true] at htkall
        exact ⟨t0, ts ++ '.' :: dr, by rw [List.nil_append, hshape]; simp,
          Or.inl htkall.1⟩

theorem jser_shape (v : JVal) : ∃ c tl, jser v = c :: tl ∧ c ≠ ']' := by
  cases v with
  | null => exact ⟨'n', ['u', 'l', 'l'], rfl, by decide⟩
  | bool b =>
    cases b with
    | true => exact ⟨'t', ['r', 'u', 'e'], rfl, by decide⟩
    | false => exact ⟨'f', ['a', 'l', 's', 'e'], rfl, by decide⟩
  | num m scale =>
    obtain ⟨c, tl, h, hc⟩ := numChars_shape m scale
    refine ⟨c, tl, h, ?_⟩
    rcases hc with hc | hc
    · exact digit_ne hc _ (by decide)
    · subst hc
      decide
  | str s => exact ⟨'"', escChars s.data ++ ['"'], rfl, by decide⟩
  | arr xs =>
    cases xs with
    | nil => exact ⟨'[', [']'], rfl, by decide⟩
    | cons x xs => exact ⟨'[', jser x ++ jserElems xs ++ [']'], rfl, by decide⟩
  | obj fs =>
    cases fs with
    | nil => exact ⟨'\x7b', ['\x7d'], rfl, by decide⟩
    | cons f fs =>
      obtain ⟨k, v⟩ := f
      exact ⟨'\x7b', ('"' :: escChars k.data ++ '"' :: ':' :: jser v) ++
        jserMembers fs ++ ['\x7d'], rfl, by decide⟩

theorem numStops_elems (xs : List JVal) (rest : List Char) :
    numStops (jserElems xs ++ ']' :: rest) = true := by
  cases xs with
  | nil => simp [jserElems, numStops]
  | cons x xs => simp [jserElems, numStops]

theorem numStops_members (fs : List (String × JVal)) (rest : List Char) :
    numStops (jserMembers fs ++ '\x7d' :: rest) = true := by
  cases fs with
  | nil => simp [jserMembers, numStops]
  | cons f fs =>
    obtain ⟨k, v⟩ := f
    simp [jserMembers, numStops]

theorem parseVal_num_dispatch (f : Nat) (c : Char) (tl : List Char)
    (hc : c.isDigit = true ∨ c = '-') :
    parseVal (f + 1) (c :: tl) = parseNum (c :: tl) := by
  have h1 : c ≠ 'n' := by
    rcases hc with hc | hc
    · exact digit_ne hc _ (by decide)
    · subst hc; decide
  have h2 : c ≠ 't' := by
    rcases hc with hc | hc
    · exact digit_ne hc _ (by decide)
    · subst hc; decide
  have h3 : c ≠ 'f' := by
    rcases hc with hc | hc
    · exact digit_ne hc _ (by decide)
    · subst hc; decide
  have h4 : c ≠ '"' := by
    rcases hc with hc | hc
    · exact digit_ne hc _ (by decide)
    · subst hc; decide
  have h5 : c ≠ '[' := by
    rcases hc with hc | hc
    · exact digit_ne hc _ (by decide)
    · subst hc; decide
  have h6 : c ≠ '\x7b' := by
    rcases hc with hc | hc
    · exact digit_ne hc _ (by decide)
    · subst hc; decide
  simp only [parseVal]
  rw [if_neg h1, if_neg h2, if_neg h3, if_neg h4, if_neg h5, if_neg h6]

mutual

theorem parseVal_jser : ∀ (v : JVal) (fuel : Nat) (rest : List Char),
    fuelV v ≤ fuel → numStops rest = true →
    parseVal fuel (jser v ++ rest) = some (v, rest)
  | .null, fuel, rest, hfv, hstop => by
    have hpos : 1 ≤ fuel := le_trans (fuelV_pos _) hfv
    obtain ⟨f, rfl⟩ : ∃ f, fuel = f + 1 := ⟨fuel - 1, by omega⟩
    rfl
  | .bool b, fuel, rest, hfv, hstop => by
    have hpos : 1 ≤ fuel := le_trans (fuelV_pos _) hfv
    obtain ⟨f, rfl⟩ : ∃ f, fuel = f + 1 := ⟨fuel - 1, by omega⟩
    cases b <;> rfl
  | .num m scale, fuel, rest, hfv, hstop => by
    have hpos : 1 ≤ fuel := le_trans (fuelV_pos _) hfv
    obtain ⟨f, rfl⟩ : ∃ f, fuel = f + 1 := ⟨fuel - 1, by omega⟩
    obtain ⟨c, tl, hsh, hc⟩ := numChars_shape m scale
    show parseVal (f + 1) (numChars m scale ++ rest) = _
    rw [hsh, List.cons_append, parseVal_num_dispatch f c _ hc, ← List.cons_append, ← hsh,
      parseNum_numChars m scale rest hstop]
  | .str s, fuel, rest, hfv, hstop => by
    have hpos : 1 ≤ fuel := le_trans (fuelV_pos _) hfv
    obtain ⟨f, rfl⟩ : ∃ f, fuel = f + 1 := ⟨fuel - 1, by omega⟩
    have hinput : jser (.str s) ++ rest = '"' :: (escChars s.data ++ '"' :: rest) := by
      show ('"' :: escChars s.data ++ ['"']) ++ rest = _
      simp
    rw [hinput]
    simp only [parseVal]
    rw [if_neg (by decide), if_neg (by decide), if_neg (by decide), if_pos trivial]
    rw [parseStrAux_enc s.data _ [] rest ?hlen]
    case hlen =>
      have := escChars_length s.data
      simp only [List.length_append, List.length_cons, List.length_nil]
      omega
    simp only [List.nil_append, Option.map_some']
  | .arr [], fuel, rest, hfv, hstop => by
    have hpos : 1 ≤ fuel := le_trans (fuelV_pos _) hfv
    obtain ⟨f, rfl⟩ : ∃ f, fuel = f + 1 := ⟨fuel - 1, by omega⟩
    rfl
  | .arr (x :: xs), fuel, rest, hfv, hstop => by
    obtain ⟨f, rfl⟩ : ∃ f, fuel = f + 1 :=
      ⟨fuel - 1, by have := fuelV_pos (JVal.arr (x :: xs)); omega⟩
    have hf' : fuelElems (x :: xs) ≤ f := by
      have hunf : fuelV (JVal.arr (x :: xs)) = fuelElems (x :: xs) + 1 := rfl
      omega
    obtain ⟨c, tl, hsh, hcne⟩ := jser_shape x
    have hinput : jser (.arr (x :: xs)) ++ rest
        = '[' :: (c :: (tl ++ (jserElems xs ++ ']' :: rest))) := by
      show (('[' :: jser x) ++ jserElems xs ++ [']']) ++ rest = _
      rw [hsh]
      simp
    rw [hinput]
    simp only [parseVal]
    rw [if_neg (by decide), if_neg (by decide), if_neg (by decide), if_neg (by decide),
      if_pos trivial]
    show (if c = ']' then some (JVal.arr [], tl ++ (jserElems xs ++ ']' :: rest))
      else (parseElems f (c :: (tl ++ (jserElems xs ++ ']' :: rest)))).map
        (fun p : List JVal × List Char => (JVal.arr p.1, p.2))) = _
    rw [if_neg hcne, ← List.cons_append, ← hsh,
      parseElems_jser x xs f rest hf' hstop]
    simp only [Option.map_some']
  | .obj [], fuel, rest, hfv, hstop => by
    have hpos : 1 ≤ fuel := le_trans (fuelV_pos _) hfv
    obtain ⟨f, rfl⟩ : ∃ f, fuel = f + 1 := ⟨fuel - 1, by omega⟩
    rfl
  | .obj ((k, v) :: fs), fuel, rest, hfv, hstop => by
    obtain ⟨f, rfl⟩ : ∃ f, fuel = f + 1 :=
      ⟨fuel - 1, by have := fuelV_pos (JVal.obj ((k, v) :: fs)); omega⟩
    have hf' : fuelMembers ((k, v) :: fs) ≤ f := by
      have hunf : fuelV (JVal.obj ((k, v) :: fs)) = fuelMembers ((k, v) :: fs) + 1 := rfl
      omega
    have hinput : jser (.obj ((k, v) :: fs)) ++ rest
        = '\x7b' :: ('"' :: (escChars k.data ++ '"' :: ':' ::
          (jser v ++ (jserMembers fs ++ '\x7d' :: rest)))) := by
      show ('\x7b' :: ('"' :: escChars k.data ++ '"' :: ':' :: jser v) ++
        jserMembers fs ++ ['\x7d']) ++ rest = _
      simp
    rw [hinput]
    simp only [parseVal]
    rw [if_neg (by decide), if_neg (by decide), if_neg (by decide), if_neg (by decide),
      if_neg (by decide), if_pos trivial]
    show (if '"' = '\x7d' then some (JVal.obj [], escChars k.data ++ '"' :: ':' ::
        (jser v ++ (jserMembers fs ++ '\x7d' :: rest)))
      else (parseMembers f ('"' :: (escChars k.data ++ '"' :: ':' ::
        (jser v ++ (jserMembers fs ++ '\x7d' :: rest)))) ).map
          (fun p : List (String × JVal) × List Char => (JVal.obj p.1, p.2))) = _
    rw [if_neg (by decide), parseMembers_jser k v fs f rest hf' hstop]
    simp only [Option.map_some']
  termination_by v fuel rest hfv hstop => sizeOf v
  decreasing_by
    all_goals simp
    all_goals omega

theorem parseElems_jser : ∀ (x : JVal) (xs : List JVal) (fuel : Nat) (rest : List Char),
    fuelElems (x :: xs) ≤ fuel → numStops rest = true →
    parseElems fuel (jser x ++ (jserElems xs ++ ']' :: rest)) = some (x :: xs, rest)
  | x, [], fuel, rest, hf, hstop => by
    obtain ⟨f, rfl⟩ : ∃ f, fuel = f + 1 :=
      ⟨fuel - 1, by have := fuelElems_pos [x]; omega⟩
    have hfx : fuelV x ≤ f := by
      have hunf : fuelElems [x] = max (fuelV x) (fuelElems []) + 1 := rfl
      have hle := Nat.le_max_left (fuelV x) (fuelElems [])
      omega
    simp only [parseElems]
    rw [parseVal_jser x f (jserElems [] ++ ']' :: rest) hfx (numStops_elems [] rest)]
    rfl
  | x, y :: ys, fuel, rest, hf, hstop => by
    obtain ⟨f, rfl⟩ : ∃ f, fuel = f + 1 :=
      ⟨fuel - 1, by have := fuelElems_pos (x :: y :: ys); omega⟩
    have hfx : fuelV x ≤ f := by
      have hunf : fuelElems (x :: y :: ys) = max (fuelV x) (fuelElems (y :: ys)) + 1 := rfl
      have hle := Nat.le_max_left (fuelV x) (fuelElems (y :: ys))
      omega
    have hfy : fuelElems (y :: ys) ≤ f := by
      have hunf : fuelElems (x :: y :: ys) = max (fuelV x) (fuelElems (y :: ys)) + 1 := rfl
      have hle := Nat.le_max_right (fuelV x) (fuelElems (y :: ys))
      omega
    simp only [parseElems]
    rw [parseVal_jser x f (jserElems (y :: ys) ++ ']' :: rest) hfx
      (numStops_elems (y :: ys) rest)]
    have hre : jserElems (y :: ys) ++ ']' :: rest
        = ',' :: (jser y ++ (jserElems ys ++ ']' :: rest)) := by
      show ((',' :: jser y) ++ jserElems ys) ++ ']' :: rest = _
      simp
    rw [hre]
    show (parseElems f (jser y ++ (jserElems ys ++ ']' :: rest))).map
      (fun p : List JVal × List Char => (x :: p.1, p.2)) = _
    rw [parseElems_jser y ys f rest hfy hstop]
    simp only [Option.map_some']
  termination_by x xs fuel rest hf hstop => sizeOf x + sizeOf xs
  decreasing_by
    all_goals simp
    all_goals omega

theorem parseMembers_jser : ∀ (k : String) (v : JVal) (fs : List (String × JVal))
    (fuel : Nat) (rest : List Char),
    fuelMembers ((k, v) :: fs) ≤ fuel → numStops rest = true →
    parseMembers fuel ('"' :: (escChars k.data ++ '"' :: ':' ::
      (jser v ++ (jserMembers fs ++ '\x7d' :: rest)))) = some ((k, v) :: fs, rest)
  | k, v, [], fuel, rest, hf, hstop => by
    obtain ⟨f, rfl⟩ : ∃ f, fuel = f + 1 :=
      ⟨fuel - 1, by have := fuelMembers_pos [(k, v)]; omega⟩
    have hfv : fuelV v ≤ f := by
      have hunf : fuelMembers [(k, v)] = max (fuelV v) (fuelMembers []) + 1 := rfl
      have hle := Nat.le_max_left (fuelV v) (fuelMembers [])
      omega
    simp only [parseMembers]
    rw [if_pos trivial]
    rw [parseStrAux_enc k.data _ []
      (':' :: (jser v ++ (jserMembers [] ++ '\x7d' :: rest))) ?hklen1]
    case hklen1 =>
      have := escChars_length k.data
      simp only [List.length_append, List.length_cons, List.length_nil]
      omega
    show (match parseVal f (jser v ++ (jserMembers [] ++ '\x7d' :: rest)) with
      | some (w, rest3) =>
        (match rest3 with
         | [] => none
         | c2 :: rest4 =>
           if c2 = ',' then
             (parseMembers f rest4).map
               (fun p : List (String × JVal) × List Char =>
                 ((String.mk ([] ++ k.data), w) :: p.1, p.2))
           else if c2 = '\x7d' then some ([(String.mk ([] ++ k.data), w)], rest4)
           else none)
      | none => none) = _
    rw [parseVal_jser v f (jserMembers [] ++ '\x7d' :: rest) hfv (numStops_members [] rest)]
    rfl
  | k, v, (k2, v2) :: fs2, fuel, rest, hf, hstop => by
    obtain ⟨f, rfl⟩ : ∃ f, fuel = f + 1 :=
      ⟨fuel - 1, by have := fuelMembers_pos ((k, v) :: (k2, v2) :: fs2); omega⟩
    have hfv : fuelV v ≤ f := by
      have hunf : fuelMembers ((k, v) :: (k2, v2) :: fs2)
          = max (fuelV v) (fuelMembers ((k2, v2) :: fs2)) + 1 := rfl
      have hle := Nat.le_max_left (fuelV v) (fuelMembers ((k2, v2) :: fs2))
      omega
    have hfm : fuelMembers ((k2, v2) :: fs2) ≤ f := by
      have hunf : fuelMembers ((k, v) :: (k2, v2) :: fs2)
          = max (fuelV v) (fuelMembers ((k2, v2) :: fs2)) + 1 := rfl
      have hle := Nat.le_max_right (fuelV v) (fuelMembers ((k2, v2) :: fs2))
      omega
    simp only [parseMembers]
    rw [if_pos trivial]
    rw [parseStrAux_enc k.data _ []
      (':' :: (jser v ++ (jserMembers ((k2, v2) :: fs2) ++ '\x7d' :: rest))) ?hklen2]
    case hklen2 =>
      have := escChars_length k.data
      simp only [List.length_append, List.length_cons, List.length_nil]
      omega
    show (match parseVal f (jser v ++ (jserMembers ((k2, v2) :: fs2) ++ '\x7d' :: rest)) with
      | some (w, rest3) =>
        (match rest3 with
         | [] => none
         | c2 :: rest4 =>
           if c2 = ',' then
             (parseMembers f rest4).map
               (fun p : List (String × JVal) × List Char =>
                 ((String.mk ([] ++ k.data), w) :: p.1, p.2))
           else if c2 = '\x7d' then some ([(String.mk ([] ++ k.data), w)], rest4)
           else none)
      | none => none) = _
    rw [parseVal_jser v f (jserMembers ((k2, v2) :: fs2) ++ '\x7d' :: rest) hfv
      (numStops_members ((k2, v2) :: fs2) rest)]
    have hre : jserMembers ((k2, v2) :: fs2) ++ '\x7d' :: rest
        = ',' :: ('"' :: (escChars k2.data ++ '"' :: ':' ::
          (jser v2 ++ (jserMembers fs2 ++ '\x7d' :: rest)))) := by
      show ((',' :: ('"' :: escChars k2.data ++ '"' :: ':' :: jser v2)) ++
        jserMembers fs2) ++ '\x7d' :: rest = _
      simp
    rw [hre]
    show (parseMembers f ('"' :: (escChars k2.data ++ '"' :: ':' ::
      (jser v2 ++ (jserMembers fs2 ++ '\x7d' :: rest))))).map
        (fun p : List (String × JVal) × List Char =>
          ((String.mk ([] ++ k.data), v) :: p.1, p.2)) = _
    rw [parseMembers_jser k2 v2 fs2 f rest hfm hstop]
    simp only [Option.map_some', List.nil_append]
  termination_by k v fs fuel rest hf hstop => sizeOf v + sizeOf fs
  decreasing_by
    all_goals simp
    all_goals omega

end

theorem jser_length_pos (v : JVal) : 1 ≤ (jser v).length := by
  obtain ⟨c, tl, h, -⟩ := jser_shape v
  rw [h]
  simp

mutual

theorem fuelV_le : ∀ (v : JVal), fuelV v ≤ (jser v).length
  | .null => by decide
  | .bool b => by cases b <;> decide
  | .num m scale => by
    have h := jser_length_pos (.num m scale)
    have hunf : fuelV (.num m scale) = 1 := rfl
    omega
  | .str s => by
    have h := jser_length_pos (.str s)
    have hunf : fuelV (.str s) = 1 := rfl
    omega
  | .arr [] => by decide
  | .arr (x :: xs) => by
    have h := fuelElems_le x xs
    have hunf : fuelV (.arr (x :: xs)) = fuelElems (x :: xs) + 1 := rfl
    have hlen : (jser (.arr (x :: xs))).length
        = (jser x).length + (jserElems xs).length + 2 := by
      show ((('[' :: jser x) ++ jserElems xs) ++ [']']).length = _
      simp only [List.length_append, List.length_cons, List.length_nil]
      omega
    omega
  | .obj [] => by decide
  | .obj ((k, v) :: fs) => by
    have h := fuelMembers_le k v fs
    have hunf : fuelV (.obj ((k, v) :: fs)) = fuelMembers ((k, v) :: fs) + 1 := rfl
    have hlen : (jser (.obj ((k, v) :: fs))).length
        = (escChars k.data).length + (jser v).length + (jserMembers fs).length + 5 := by
      show ((('\x7b' :: ('"' :: escChars k.data ++ '"' :: ':' :: jser v)) ++
        jserMembers fs) ++ ['\x7d']).length = _
      simp only [List.length_append, List.length_cons, List.length_nil]
      omega
    omega
  termination_by v => sizeOf v
  decreasing_by
    all_goals simp
    all_goals omega

theorem fuelElems_le : ∀ (x : JVal) (xs : List JVal),
    fuelElems (x :: xs) ≤ (jser x).length + (jserElems xs).length + 1
  | x, [] => by
    have h := fuelV_le x
    have hpos := jser_length_pos x
    have hunf : fuelElems [x] = max (fuelV x) (fuelElems []) + 1 := rfl
    have hm : max (fuelV x) (fuelElems []) ≤ (jser x).length :=
      Nat.max_le.mpr ⟨h, by have : fuelElems ([] : List JVal) = 1 := rfl; omega⟩
    have hE : (jserElems ([] : List JVal)).length = 0 := rfl
    omega
  | x, y :: ys => by
    have h := fuelV_le x
    have h2 := fuelElems_le y ys
    have hpos := jser_length_pos x
    have hunf : fuelElems (x :: y :: ys) = max (fuelV x) (fuelElems (y :: ys)) + 1 := rfl
    have hE : (jserElems (y :: ys)).length = (jser y).length + (jserElems ys).length + 1 := by
      show (((',' :: jser y) ++ jserElems ys)).length = _
      simp only [List.length_append, List.length_cons, List.length_nil]
      omega
    have hm : max (fuelV x) (fuelElems (y :: ys))
        ≤ (jser x).length + (jserElems (y :: ys)).length :=
      Nat.max_le.mpr ⟨by omega, by omega⟩
    omega
  termination_by x xs => sizeOf x + sizeOf xs
  decreasing_by
    all_goals simp
    all_goals omega

theorem fuelMembers_le : ∀ (k : String) (v : JVal) (fs : List (String × JVal)),
    fuelMembers ((k, v) :: fs) ≤
      (escChars k.data).length + (jser v).length + (jserMembers fs).length + 4
  | k, v, [] => by
    have h := fuelV_le v
    have hunf : fuelMembers [(k, v)] = max (fuelV v) (fuelMembers []) + 1 := rfl
    have hm : max (fuelV v) (fuelMembers []) ≤ (jser v).length + 1 :=
      Nat.max_le.mpr ⟨by omega, by have : fuelMembers ([] : List (String × JVal)) = 1 := rfl; omega⟩
    omega
  | k, v, (k2, v2) :: fs2 => by
    have h := fuelV_le v
    have h2 := fuelMembers_le k2 v2 fs2
    have hunf : fuelMembers ((k, v) :: (k2, v2) :: fs2)
        = max (fuelV v) (fuelMembers ((k2, v2) :: fs2)) + 1 := rfl
    have hM : (jserMembers ((k2, v2) :: fs2)).length
        = (escChars k2.data).length + (jser v2).length + (jserMembers fs2).length + 4 := by
      show (((',' :: ('"' :: escChars k2.data ++ '"' :: ':' :: jser v2)) ++
        jserMembers fs2)).length = _
      simp only [List.length_append, List.length_cons, List.length_nil]
      omega
    have hm : max (fuelV v) (fuelMembers ((k2, v2) :: fs2))
        ≤ (jser v).length + (jserMembers ((k2, v2) :: fs2)).length :=
      Nat.max_le.mpr ⟨by omega, by omega⟩
    omega
  termination_by k v fs => sizeOf v + sizeOf fs
  decreasing_by
    all_goals simp
    all_goals omega

end

/-- Parsing the serialization of any JSON value recovers the value. -/
theorem jparse_jser (v : JVal) : jparse (String.mk (jser v)) = some v := by
  unfold jparse
  have hdata : (String.mk (jser v)).data = jser v := rfl
  rw [hdata]
  have h := parseVal_jser v ((jser v).length) [] (fuelV_le v) rfl
  rw [List.append_nil] at h
  rw [h]

/-! ### Dictionary and synchronizer lemmas -/

theorem pyGet_dictSet_ne (fs : List (String × JVal)) (k k' : String) (v : JVal)
    (h : k' ≠ k) : pyGet (dictSet fs k v) k' = pyGet fs k' := by
  induction fs with
  | nil =>
    simp only [dictSet, pyGet]
    rw [if_neg (fun hh => h hh.symm)]
  | cons kv rest ih =>
    obtain ⟨k0, v0⟩ := kv
    by_cases h0 : k0 = k
    · subst h0
      simp only [dictSet, if_pos rfl, pyGet]
      rw [if_neg (fun hh => h hh.symm), if_neg (fun hh => h hh.symm)]
    · simp only [dictSet, if_neg h0, pyGet]
      by_cases h1 : k0 = k'
      · rw [if_pos h1, if_pos h1]
      · rw [if_neg h1, if_neg h1]
        exact ih

theorem pyGet_dictSet_self (fs : List (String × JVal)) (k : String) (v : JVal) :
    pyGet (dictSet fs k v) k = some v := by
  induction fs with
  | nil => simp [dictSet, pyGet]
  | cons kv rest ih =>
    obtain ⟨k0, v0⟩ := kv
    by_cases h0 : k0 = k
    · subst h0
      simp [dictSet, pyGet]
    · simp only [dictSet, if_neg h0, pyGet]
      exact ih

theorem listFieldAppend_eq (pfs : List (String × JVal)) (k : String) (v : JVal)
    (h : isListField (pyGet pfs k) = true) :
    listFieldAppend pfs k v = .ok (dictSet pfs k (.arr (recList (pyGet pfs k) ++ [v]))) := by
  unfold listFieldAppend
  match hk : pyGet pfs k with
  | none => rfl
  | some (.arr xs) => rfl
  | some .null | some (.bool _) | some (.num _ _) | some (.str _) | some (.obj _) =>
    rw [hk] at h
    simp [isListField] at h

theorem listFieldAppend_ok (pfs pfs' : List (String × JVal)) (k : String) (v : JVal)
    (h : listFieldAppend pfs k v = .ok pfs') :
    isListField (pyGet pfs k) = true ∧
      pfs' = dictSet pfs k (.arr (recList (pyGet pfs k) ++ [v])) := by
  unfold listFieldAppend at h
  match hk : pyGet pfs k with
  | none =>
    rw [hk] at h
    exact ⟨rfl, by cases h; rfl⟩
  | some (.arr xs) =>
    rw [hk] at h
    exact ⟨rfl, by cases h; rfl⟩
  | some .null | some (.bool _) | some (.num _ _) | some (.str _) | some (.obj _) =>
    rw [hk] at h
    cases h

theorem listFieldAppend_frame (pfs pfs' : List (String × JVal)) (k : String) (v : JVal)
    (h : listFieldAppend pfs k v = .ok pfs') (k' : String) (hk : k' ≠ k) :
    pyGet pfs' k' = pyGet pfs k' := by
  obtain ⟨-, rfl⟩ := listFieldAppend_ok pfs pfs' k v h
  exact pyGet_dictSet_ne pfs k k' _ hk

theorem listFieldAppend_self (pfs pfs' : List (String × JVal)) (k : String) (v : JVal)
    (h : listFieldAppend pfs k v = .ok pfs') :
    pyGet pfs' k = some (.arr (recList (pyGet pfs k) ++ [v])) := by
  obtain ⟨-, rfl⟩ := listFieldAppend_ok pfs pfs' k v h
  exact pyGet_dictSet_self pfs k _

theorem syncVitals_cases (rfs pfs pfs' : List (String × JVal))
    (h : syncVitals rfs pfs = .ok pfs') :
    (vitalsTruthy rfs = true ∧ ∃ hr, listFieldAppend pfs "healthRecords" hr = .ok pfs') ∨
    (vitalsTruthy rfs = false ∧ pfs' = pfs) := by
  unfold syncVitals at h
  match hpe : pyGetD rfs "physicalExamination" (.obj []) with
  | .obj pef =>
    simp only [hpe] at h
    match hvs : pyGetD pef "vitalSigns" (.obj []) with
    | .obj vitf =>
      simp only [hvs] at h
      have hvt : vitalsTruthy rfs = (vitf.map Prod.snd).any truthy := by
        unfold vitalsTruthy
        simp only [hpe, hvs]
      rw [hvt]
      by_cases ht : (vitf.map Prod.snd).any truthy = true
      · simp only [ht, if_true] at h
        left
        refine ⟨ht, ?_⟩
        match h1 : vitalInt vitf "bp_systolic" with
        | .error e => simp only [h1] at h; exact (Except.noConfusion h)
        | .ok sys =>
          simp only [h1] at h
          match h2 : vitalInt vitf "bp_diastolic" with
          | .error e => simp only [h2] at h; exact (Except.noConfusion h)
          | .ok dia =>
            simp only [h2] at h
            match h3 : vitalInt vitf "pulse" with
            | .error e => simp only [h3] at h; exact (Except.noConfusion h)
            | .ok pul =>
              simp only [h3] at h
              match h4 : vitalFloat vitf "temperature" with
              | .error e => simp only [h4] at h; exact (Except.noConfusion h)
              | .ok tmp =>
                simp only [h4] at h
                exact ⟨_, h⟩
      · rw [Bool.not_eq_true] at ht
        simp only [ht, Bool.false_eq_true, if_false] at h
        right
        exact ⟨ht, by cases h; rfl⟩
    | .null | .bool _ | .num _ _ | .str _ | .arr _ =>
      simp only [hvs] at h
      exact (Except.noConfusion h)
  | .null | .bool _ | .num _ _ | .str _ | .arr _ =>
    simp only [hpe] at h
    exact (Except.noConfusion h)

theorem syncDental_cases (rfs pfs pfs' : List (String × JVal))
    (h : syncDental rfs pfs = .ok pfs') :
    (dentalTruthy rfs = true ∧ ∃ dr, listFieldAppend pfs "dentalRecords" dr = .ok pfs') ∨
    (dentalTruthy rfs = false ∧ pfs' = pfs) := by
  unfold syncDental at h
  unfold dentalTruthy
  by_cases ht : truthy (pyGetD rfs "dentalExamination" .null) = true
  · simp only [ht, if_true] at h
    exact Or.inl ⟨ht, _, h⟩
  · rw [Bool.not_eq_true] at ht
    simp only [ht, Bool.false_eq_true, if_false] at h
    exact Or.inr ⟨ht, by cases h; rfl⟩

theorem syncVision_cases (rfs pfs pfs' : List (String × JVal))
    (h : syncVision rfs pfs = .ok pfs') :
    (visionTruthy rfs = true ∧ ∃ vr, listFieldAppend pfs "visionRecords" vr = .ok pfs') ∨
    (visionTruthy rfs = false ∧ pfs' = pfs) := by
  unfold syncVision at h
  unfold visionTruthy
  match hvx : pyGetD rfs "visionExamination" (.obj []) with
  | .obj vxf =>
    simp only [hvx] at h
    by_cases ht : (vxf.map Prod.snd).any truthy = true
    · simp only [ht, if_true] at h
      exact Or.inl ⟨ht, _, h⟩
    · rw [Bool.not_eq_true] at ht
      simp only [ht, Bool.false_eq_true, if_false] at h
      exact Or.inr ⟨ht, by cases h; rfl⟩
  | .null | .bool _ | .num _ _ | .str _ | .arr _ =>
    simp only [hvx] at h
    exact (Except.noConfusion h)

theorem syncReport_decomp (rid : String) (rfs0 pfs pfs' : List (String × JVal))
    (h : syncReport rid (.obj rfs0) pfs = .ok pfs') :
    ∃ pfs1 pfs2 pfs3,
      listFieldAppend pfs "medicalReports" (.obj (withReportId rid rfs0)) = .ok pfs1 ∧
      syncVitals (withReportId rid rfs0) pfs1 = .ok pfs2 ∧
      syncDental (withReportId rid rfs0) pfs2 = .ok pfs3 ∧
      syncVision (withReportId rid rfs0) pfs3 = .ok pfs' := by
  unfold syncReport at h
  match h1 : listFieldAppend pfs "medicalReports" (.obj (withReportId rid rfs0)) with
  | .error e => simp only [h1] at h; exact (Except.noConfusion h)
  | .ok pfs1 =>
    simp only [h1] at h
    match h2 : syncVitals (withReportId rid rfs0) pfs1 with
    | .error e => simp only [h2] at h; exact (Except.noConfusion h)
    | .ok pfs2 =>
      simp only [h2] at h
      match h3 : syncDental (withReportId rid rfs0) pfs2 with
      | .error e => simp only [h3] at h; exact (Except.noConfusion h)
      | .ok pfs3 =>
        simp only [h3] at h
        exact ⟨pfs1, pfs2, pfs3, rfl, h2, h3, h⟩

/-! ### The persisted store round-trips; lookup after append -/

/-- Saving with `save_all_patient_data` and re-reading with
`load_all_patient_data` restores the document exactly. -/
theorem load_save_roundtrip (v : JVal) :
    load_all_patient_data (save_all_patient_data v) = some v :=
  jparse_jser v

/-- Claim C8: round-trip persistence — for every JSON-representable patient
collection, saving it with `save_all_patient_data` (`json.dump`, `app.py`
lines 34–37) and loading it back with `load_all_patient_data` (`json.load`,
lines 29–32) yields a collection deep-equal to the one saved. -/
theorem C8_save_load_roundtrip (v : JVal) :
    load_all_patient_data (save_all_patient_data v) = some v :=
  load_save_roundtrip v

/-- Claim C9: for every collection and every patient record carrying an id
that does not already occur in the collection (the linear scan completes
without a hit), `findById` after append returns the appended record
unchanged, at the appended position. -/
theorem C9_find_after_append (items : List JVal) (pid : String)
    (pfs : List (String × JVal))
    (hself : pyGet pfs "id" = some (.str pid))
    (hfresh : findById items pid = .ok none) :
    findById (items ++ [.obj pfs]) pid = .ok (some (items.length, pfs)) := by
  have he : eqStrVal (.str pid) pid = true := by simp [eqStrVal]
  unfold findById at hfresh ⊢
  suffices h : ∀ i, findByIdAux items pid i = .ok none →
      findByIdAux (items ++ [.obj pfs]) pid i = .ok (some (i + items.length, pfs)) by
    have h0 := h 0 hfresh
    simpa using h0
  clear hfresh
  induction items with
  | nil =>
    intro i _
    simp only [List.nil_append, findByIdAux, hself, he, if_true, List.length_nil,
      Nat.add_zero]
  | cons p rest ih =>
    intro i h
    match p with
    | .obj fs =>
      simp only [findByIdAux] at h
      match hv : pyGet fs "id" with
      | some v =>
        simp only [hv] at h
        by_cases hev : eqStrVal v pid = true
        · rw [if_pos hev] at h
          exact Option.noConfusion (Except.ok.inj h)
        · rw [Bool.not_eq_true] at hev
          rw [if_neg (by rw [hev]; exact Bool.false_ne_true)] at h
          have hr := ih (i + 1) h
          simp only [List.cons_append, List.append_eq, findByIdAux, hv, hev,
            Bool.false_eq_true, if_false, List.length_cons]
          rw [hr]
          have harith : i + 1 + rest.length = i + (rest.length + 1) := by omega
          rw [harith]
      | none =>
        simp only [hv] at h
        exact (Except.noConfusion h)
    | .null | .bool _ | .num _ _ | .str _ | .arr _ =>
      simp only [findByIdAux] at h
      exact (Except.noConfusion h)

/-- Witness for C9 at a two-element collection. -/
theorem C9_find_after_append_witness :
    findById ([.obj [("id", .str "p0")]] ++ [.obj [("id", .str "p1")]]) "p1" =
      .ok (some (1, [("id", .str "p1")])) :=
  C9_find_after_append [.obj [("id", .str "p0")]] "p1" [("id", .str "p1")] rfl rfl

/-! ### Report ingestion is all-or-nothing (C1); update stores the body (C3) -/

/-- Claim C1: report ingestion is all-or-nothing with respect to the
persisted store.  Every run of `add_medical_report` either leaves the store
content exactly unchanged, or succeeds and persists, in one whole-document
write, the patient with the report appended and every derived record the
synchronizer produced; and the concrete request whose
`vitalSigns.bp_systolic` is the non-numeric string `"abc"` fails with a 500
while the persisted collection stays exactly what it was. -/
theorem C1_report_all_or_nothing :
    (∀ (rid pid : String) (report : JVal) (file : String),
      (add_medical_report rid pid report file).2 = file ∨
      (∃ (doc : JVal) (items : List JVal) (i : Nat)
          (pfs pfs' : List (String × JVal)),
        load_all_patient_data file = some doc ∧
        pyIter doc = some items ∧
        findById items pid = .ok (some (i, pfs)) ∧
        syncReport rid report pfs = .ok pfs' ∧
        add_medical_report rid pid report file =
          (.ok (.obj [("success", .bool true),
                      ("message", .str "Medical report added and all sections synced.")]),
           save_all_patient_data (.arr (items.set i (.obj pfs')))))) ∧
    add_medical_report "r1" "p1" reportAbc
        (save_all_patient_data (.arr [.obj patientAbc])) =
      (.serverError, save_all_patient_data (.arr [.obj patientAbc])) := by
  constructor
  · intro rid pid report file
    match hload : load_all_patient_data file with
    | none => exact Or.inl (by simp only [add_medical_report, hload])
    | some doc =>
      match hiter : pyIter doc with
      | none => exact Or.inl (by simp only [add_medical_report, hload, hiter])
      | some items =>
        match hfind : findById items pid with
        | .error e =>
          exact Or.inl (by simp only [add_medical_report, hload, hiter, hfind])
        | .ok none =>
          exact Or.inl (by simp only [add_medical_report, hload, hiter, hfind])
        | .ok (some (i, pfs)) =>
          match hsync : syncReport rid report pfs with
          | .error e =>
            exact Or.inl (by
              simp only [add_medical_report, hload, hiter, hfind, hsync])
          | .ok pfs' =>
            refine Or.inr ⟨doc, items, i, pfs, pfs', rfl, hiter, hfind, hsync, ?_⟩
            simp only [add_medical_report, hload, hiter, hfind, hsync]
  · unfold add_medical_report
    rw [load_save_roundtrip]
    rfl

/-- Refutation of claim C3: updating patient `p1` with a body whose id is
`"p2"` succeeds and persists the body verbatim, so the stored patient's id
is now `"p2"`, not the id it was created under. -/
theorem C3_counterexample_id_changed :
    update_patient_record "p1" (.obj [("id", .str "p2")])
        (save_all_patient_data (.arr [.obj [("id", .str "p1")]])) =
      (.ok (.obj [("success", .bool true),
                  ("message", .str "Patient record updated successfully")]),
       save_all_patient_data (.arr [.obj [("id", .str "p2")]])) := by
  unfold update_patient_record
  rw [load_save_roundtrip]
  rfl

/-- Claim C3, amended: `update_patient_record` either leaves the store
unchanged or replaces the first id match wholesale by the request body,
verbatim — so the stored id equals whatever id the body carries, and the
creation-time id is preserved only when the body repeats it. -/
theorem C3_update_stores_body_verbatim :
    ∀ (pid : String) (body : JVal) (file : String),
      (update_patient_record pid body file).2 = file ∨
      (∃ (doc : JVal) (items : List JVal) (i : Nat)
          (pfs : List (String × JVal)),
        load_all_patient_data file = some doc ∧
        pyIter doc = some items ∧
        findById items pid = .ok (some (i, pfs)) ∧
        update_patient_record pid body file =
          (.ok (.obj [("success", .bool true),
                      ("message", .str "Patient record updated successfully")]),
           save_all_patient_data (.arr (items.set i body)))) := by
  intro pid body file
  match hload : load_all_patient_data file with
  | none => exact Or.inl (by simp only [update_patient_record, hload])
  | some doc =>
    match hiter : pyIter doc with
    | none => exact Or.inl (by simp only [update_patient_record, hload, hiter])
    | some items =>
      match hfind : findById items pid with
      | .error e =>
        exact Or.inl (by simp only [update_patient_record, hload, hiter, hfind])
      | .ok none =>
        exact Or.inl (by simp only [update_patient_record, hload, hiter, hfind])
      | .ok (some (i, pfs)) =>
        refine Or.inr ⟨doc, items, i, pfs, rfl, hiter, hfind, ?_⟩
        simp only [update_patient_record, hload, hiter, hfind]

/-! ### The summary endpoint's short-circuit (C2, C7) -/

/-- Refutation of claim C2: for a patient with no medical reports and an
empty `dentalRecords` sequence, the `dental` summary request reaches the
fall-back `json.dumps` of the empty sequence, whose rendering `"[]"` passes
the emptiness gate — so the external completion service IS invoked, and no
canned message is returned. -/
theorem C2_counterexample_service_invoked :
    invokesService (get_ai_summary true "p1" (.obj [("section", .str "dental")])
      (save_all_patient_data (.arr [.obj patientEmptyDental]))) = true := by
  unfold get_ai_summary
  rw [load_save_roundtrip]
  rfl

/-- Claim C2, amended: for every existing patient whose `medicalReports`
value is falsy and whose `dentalRecords` value is the empty sequence, the
`dental` summary request serializes that empty sequence to `"[]"`, which the
emptiness gate does not catch, and hands the resulting prompt to the
external completion service instead of returning the canned message. -/
theorem C2_dental_fallback_invokes_service (pid : String)
    (bf pf : List (String × JVal)) (doc : JVal) (items : List JVal) (i : Nat)
    (file : String)
    (hsect : pyGetD bf "section" (.str "general") = .str "dental")
    (hload : load_all_patient_data file = some doc)
    (hiter : pyIter doc = some items)
    (hfind : findById items pid = .ok (some (i, pf)))
    (hnorep : truthy (pyGetD pf "medicalReports" .null) = false)
    (hdent : pyGetD pf "dentalRecords" .null = .arr []) :
    get_ai_summary true pid (.obj bf) file =
      .callService (promptText (.str "dental") "[]") := by
  unfold get_ai_summary
  simp only [hsect, hload, hiter, hfind, hnorep, hdent, Bool.false_eq_true, if_false]
  rfl

/-- Witness for the amended C2 at the concrete store of the refutation. -/
theorem C2_dental_fallback_witness :
    get_ai_summary true "p1" (.obj [("section", .str "dental")])
        (save_all_patient_data (.arr [.obj patientEmptyDental])) =
      .callService (promptText (.str "dental") "[]") :=
  C2_dental_fallback_invokes_service "p1" [("section", .str "dental")]
    patientEmptyDental (.arr [.obj patientEmptyDental]) [.obj patientEmptyDental] 0
    (save_all_patient_data (.arr [.obj patientEmptyDental]))
    rfl (load_save_roundtrip _) rfl rfl rfl rfl

/-- Refutation of claim C7: for an existing patient without medical reports,
a summary request with the default section tag `general` does not return the
canned message — the fall-back `patient.get(record_map.get(section, []))`
raises (a list is not a valid dict key), surfacing as a 500. -/
theorem C7_counterexample_general_no_reports_500 :
    get_ai_summary true "p1" (.obj [])
      (save_all_patient_data (.arr [.obj [("id", .str "p1")]])) = .serverError := by
  unfold get_ai_summary
  rw [load_save_roundtrip]
  rfl

/-- Claim C7, amended: the no-op treatment of an unrecognized section tag
(including the default `general`) holds only when the patient has medical
reports: then the notes stay empty and the canned message is returned
without invoking the external completion service.  (Without reports the
fall-back raises instead — see the refutation.) -/
theorem C7_unrecognized_section_with_reports_canned (pid : String)
    (bf pf : List (String × JVal)) (doc sect lr : JVal) (items : List JVal)
    (i : Nat) (file : String)
    (hsect : pyGetD bf "section" (.str "general") = sect)
    (hnh : eqStrVal sect "health" = false)
    (hnd : eqStrVal sect "dental" = false)
    (hnv : eqStrVal sect "vision" = false)
    (hload : load_all_patient_data file = some doc)
    (hiter : pyIter doc = some items)
    (hfind : findById items pid = .ok (some (i, pf)))
    (htr : truthy (pyGetD pf "medicalReports" .null) = true)
    (hlast : latestOf (pyGetD pf "medicalReports" .null) = .ok lr) :
    get_ai_summary true pid (.obj bf) file = .canned (cannedMsg sect) ∧
    invokesService (get_ai_summary true pid (.obj bf) file) = false := by
  have h1 : get_ai_summary true pid (.obj bf) file = .canned (cannedMsg sect) := by
    unfold get_ai_summary
    simp only [hsect, hload, hiter, hfind, htr, if_true, hlast, hnh, hnd, hnv,
      Bool.false_eq_true, if_false]
    rfl
  exact ⟨h1, by rw [h1]; rfl⟩

/-- Witness for the amended C7: default section `general`, one stored
medical report. -/
theorem C7_unrecognized_section_witness :
    get_ai_summary true "p1" (.obj [])
        (save_all_patient_data (.arr [.obj [("id", .str "p1"),
          ("medicalReports", .arr [.obj []])]])) =
      .canned (cannedMsg (.str "general")) ∧
    invokesService (get_ai_summary true "p1" (.obj [])
        (save_all_patient_data (.arr [.obj [("id", .str "p1"),
          ("medicalReports", .arr [.obj []])]]))) = false :=
  C7_unrecognized_section_with_reports_canned "p1" []
    [("id", .str "p1"), ("medicalReports", .arr [.obj []])]
    (.arr [.obj [("id", .str "p1"), ("medicalReports", .arr [.obj []])]])
    (.str "general") (.obj [])
    [.obj [("id", .str "p1"), ("medicalReports", .arr [.obj []])]] 0
    (save_all_patient_data (.arr [.obj [("id", .str "p1"),
      ("medicalReports", .arr [.obj []])]]))
    rfl rfl rfl rfl (load_save_roundtrip _) rfl rfl rfl rfl

/-! ### The derived-record gates (C4) -/

/-- Attaching the generated `reportId` does not change the vitals gate. -/
theorem vitalsTruthy_withReportId (rid : String) (rfs0 : List (String × JVal)) :
    vitalsTruthy (withReportId rid rfs0) = vitalsTruthy rfs0 := by
  unfold vitalsTruthy withReportId pyGetD
  rw [pyGet_dictSet_ne rfs0 "reportId" "physicalExamination" (.str rid) (by decide)]

/-- Attaching the generated `reportId` does not change the vision gate. -/
theorem visionTruthy_withReportId (rid : String) (rfs0 : List (String × JVal)) :
    visionTruthy (withReportId rid rfs0) = visionTruthy rfs0 := by
  unfold visionTruthy withReportId pyGetD
  rw [pyGet_dictSet_ne rfs0 "reportId" "visionExamination" (.str rid) (by decide)]

/-- Claim C4: on every successful report ingestion, a HealthRecord is
appended to `healthRecords` if and only if some value of the submitted
report's `physicalExamination.vitalSigns` (absent treated as an empty
mapping) is truthy, and a VisionRecord is appended to `visionRecords` iff
some value of `visionExamination` is truthy; in particular a report whose
vitals carry only `pulse: 0` (zero is falsy) synchronizes without appending
any HealthRecord. -/
theorem C4_derived_record_gates :
    (∀ (rid : String) (rfs0 pfs pfs' : List (String × JVal)),
      syncReport rid (.obj rfs0) pfs = .ok pfs' →
      ((vitalsTruthy rfs0 = true →
          ∃ hr, pyGet pfs' "healthRecords" =
            some (.arr (recList (pyGet pfs "healthRecords") ++ [hr]))) ∧
       (vitalsTruthy rfs0 = false →
          pyGet pfs' "healthRecords" = pyGet pfs "healthRecords") ∧
       (visionTruthy rfs0 = true →
          ∃ vr, pyGet pfs' "visionRecords" =
            some (.arr (recList (pyGet pfs "visionRecords") ++ [vr]))) ∧
       (visionTruthy rfs0 = false →
          pyGet pfs' "visionRecords" = pyGet pfs "visionRecords"))) ∧
    (∃ pfs', syncReport "r1"
        (.obj [("physicalExamination", .obj
          [("vitalSigns", .obj [("pulse", .num 0 0)])])])
        [("id", .str "p1")] = .ok pfs' ∧
      pyGet pfs' "healthRecords" = none) := by
  constructor
  · intro rid rfs0 pfs pfs' h
    obtain ⟨pfs1, pfs2, pfs3, h1, h2, h3, h4⟩ := syncReport_decomp rid rfs0 pfs pfs' h
    have fh1 : pyGet pfs1 "healthRecords" = pyGet pfs "healthRecords" :=
      listFieldAppend_frame _ _ _ _ h1 _ (by decide)
    have fv1 : pyGet pfs1 "visionRecords" = pyGet pfs "visionRecords" :=
      listFieldAppend_frame _ _ _ _ h1 _ (by decide)
    have fv2 : pyGet pfs2 "visionRecords" = pyGet pfs1 "visionRecords" := by
      rcases syncVitals_cases _ _ _ h2 with ⟨-, hr, hh⟩ | ⟨-, rfl⟩
      · exact listFieldAppend_frame _ _ _ _ hh _ (by decide)
      · rfl
    have fh3 : pyGet pfs3 "healthRecords" = pyGet pfs2 "healthRecords" := by
      rcases syncDental_cases _ _ _ h3 with ⟨-, dr, hd⟩ | ⟨-, rfl⟩
      · exact listFieldAppend_frame _ _ _ _ hd _ (by decide)
      · rfl
    have fv3 : pyGet pfs3 "visionRecords" = pyGet pfs2 "visionRecords" := by
      rcases syncDental_cases _ _ _ h3 with ⟨-, dr, hd⟩ | ⟨-, rfl⟩
      · exact listFieldAppend_frame _ _ _ _ hd _ (by decide)
      · rfl
    have fh4 : pyGet pfs' "healthRecords" = pyGet pfs3 "healthRecords" := by
      rcases syncVision_cases _ _ _ h4 with ⟨-, vr, hv⟩ | ⟨-, rfl⟩
      · exact listFieldAppend_frame _ _ _ _ hv _ (by decide)
      · rfl
    refine ⟨?_, ?_, ?_, ?_⟩
    · intro hg
      rcases syncVitals_cases _ _ _ h2 with ⟨-, hr, hh⟩ | ⟨hgf, -⟩
      · refine ⟨hr, ?_⟩
        rw [fh4, fh3, listFieldAppend_self _ _ _ _ hh, fh1]
      · rw [vitalsTruthy_withReportId, hg] at hgf
        exact (Bool.noConfusion hgf)
    · intro hg
      rcases syncVitals_cases _ _ _ h2 with ⟨hgt, -⟩ | ⟨-, rfl⟩
      · rw [vitalsTruthy_withReportId, hg] at hgt
        exact (Bool.noConfusion hgt)
      · rw [fh4, fh3, fh1]
    · intro hg
      rcases syncVision_cases _ _ _ h4 with ⟨-, vr, hv⟩ | ⟨hgf, -⟩
      · refine ⟨vr, ?_⟩
        rw [listFieldAppend_self _ _ _ _ hv, fv3, fv2, fv1]
      · rw [visionTruthy_withReportId, hg] at hgf
        exact (Bool.noConfusion hgf)
    · intro hg
      rcases syncVision_cases _ _ _ h4 with ⟨hgt, -⟩ | ⟨-, rfl⟩
      · rw [visionTruthy_withReportId, hg] at hgt
        exact (Bool.noConfusion hgt)
      · rw [fv3, fv2, fv1]
  · exact ⟨_, rfl, rfl⟩

/-! ### Concrete report scenarios (C5, C6) -/

/-- Claim C5: submitting a report whose only populated field is
`physicalExamination.vitalSigns.pulse` (the numeric string `"72"`) to a
patient with empty record sequences appends exactly one HealthRecord whose
`pulse` is the parsed integer 72 and whose `systolic_bp`, `diastolic_bp`
and `temperature` are null, appends no DentalRecord and no VisionRecord,
and stores the report itself under `medicalReports` with the generated
`reportId` attached. -/
theorem C5_pulse_only_report :
    add_medical_report "r1" "p1" reportPulseOnly
        (save_all_patient_data (.arr [.obj patientBlank])) =
      (.ok (.obj [("success", .bool true),
                  ("message", .str "Medical report added and all sections synced.")]),
       save_all_patient_data (.arr [.obj
         [("id", .str "p1"),
          ("healthRecords", .arr [.obj
            [("date", .null),
             ("systolic_bp", .null),
             ("diastolic_bp", .null),
             ("pulse", .num 72 0),
             ("temperature", .null),
             ("doctor_notes", .str "Chief Complaint: N/A. Assessment: N/A")]]),
          ("dentalRecords", .arr []),
          ("visionRecords", .arr []),
          ("medicalReports", .arr [.obj
            [("physicalExamination", .obj
              [("vitalSigns", .obj [("pulse", .str "72")])]),
             ("reportId", .str "r1")]])]])) := by
  unfold add_medical_report
  rw [load_save_roundtrip]
  rfl

/-- Claim C6: submitting a report with an empty `vitalSigns` mapping, empty
`dentalExamination` and empty `visionExamination` appends no HealthRecord,
DentalRecord or VisionRecord, but the report itself, with the freshly
generated `reportId` attached, is still appended as the last element of the
patient's `medicalReports`. -/
theorem C6_empty_sections_report_still_appended :
    add_medical_report "r1" "p1" reportAllEmpty
        (save_all_patient_data (.arr [.obj patientOneReport])) =
      (.ok (.obj [("success", .bool true),
                  ("message", .str "Medical report added and all sections synced.")]),
       save_all_patient_data (.arr [.obj
         [("id", .str "p1"),
          ("healthRecords", .arr []),
          ("dentalRecords", .arr []),
          ("visionRecords", .arr []),
          ("medicalReports", .arr
            [.obj [("reportId", .str "r0")],
             .obj [("physicalExamination", .obj [("vitalSigns", .obj [])]),
                   ("dentalExamination", .obj []),
                   ("visionExamination", .obj []),
                   ("reportId", .str "r1")]])]])) := by
  unfold add_medical_report
  rw [load_save_roundtrip]
  rfl

/-! ### Frame property of report ingestion (C10) -/

/-- Positional replacement leaves every other position unchanged. -/
theorem listSet_get_ne {α : Type} (l : List α) (a : α) :
    ∀ (i j : Nat), j ≠ i → (l.set i a).get? j = l.get? j := by
  induction l with
  | nil =>
    intro i j _
    simp [List.set]
  | cons x xs ih =>
    intro i j hne
    match i, j with
    | 0, 0 => exact absurd rfl hne
    | 0, j + 1 => simp [List.set]
    | i + 1, 0 => simp [List.set]
    | i + 1, j + 1 =>
      simp only [List.set, List.get?_cons_succ]
      exact ih i j (fun h => hne (by rw [h]))

/-- Claim C10: frame property of report ingestion.  On a successful
`add_medical_report` run, the persisted collection re-loads as the old
collection with only the matched patient's entry replaced: every other
element is unchanged, and within the replaced patient every field other
than `medicalReports`, `healthRecords`, `dentalRecords` and `visionRecords`
is unchanged. -/
theorem C10_report_frame (rid pid : String) (report : JVal) (file : String)
    (doc : JVal) (items : List JVal) (i : Nat) (pfs pfs' : List (String × JVal))
    (hload : load_all_patient_data file = some doc)
    (hiter : pyIter doc = some items)
    (hfind : findById items pid = .ok (some (i, pfs)))
    (hsync : syncReport rid report pfs = .ok pfs') :
    load_all_patient_data (add_medical_report rid pid report file).2 =
        some (.arr (items.set i (.obj pfs'))) ∧
    (∀ j, j ≠ i → (items.set i (.obj pfs')).get? j = items.get? j) ∧
    (∀ k, k ≠ "medicalReports" → k ≠ "healthRecords" → k ≠ "dentalRecords" →
      k ≠ "visionRecords" → pyGet pfs' k = pyGet pfs k) := by
  refine ⟨?_, ?_, ?_⟩
  · have hsave : (add_medical_report rid pid report file).2 =
        save_all_patient_data (.arr (items.set i (.obj pfs'))) := by
      simp only [add_medical_report, hload, hiter, hfind, hsync]
    rw [hsave]
    exact load_save_roundtrip _
  · intro j hj
    exact listSet_get_ne items (.obj pfs') i j hj
  · intro k hk1 hk2 hk3 hk4
    match hrep : report with
    | .obj rfs0 =>
      obtain ⟨pfs1, pfs2, pfs3, h1, h2, h3, h4⟩ :=
        syncReport_decomp rid rfs0 pfs pfs' hsync
      have f1 : pyGet pfs1 k = pyGet pfs k := listFieldAppend_frame _ _ _ _ h1 k hk1
      have f2 : pyGet pfs2 k = pyGet pfs1 k := by
        rcases syncVitals_cases _ _ _ h2 with ⟨-, hr, hh⟩ | ⟨-, rfl⟩
        · exact listFieldAppend_frame _ _ _ _ hh k hk2
        · rfl
      have f3 : pyGet pfs3 k = pyGet pfs2 k := by
        rcases syncDental_cases _ _ _ h3 with ⟨-, dr, hd⟩ | ⟨-, rfl⟩
        · exact listFieldAppend_frame _ _ _ _ hd k hk3
        · rfl
      have f4 : pyGet pfs' k = pyGet pfs3 k := by
        rcases syncVision_cases _ _ _ h4 with ⟨-, vr, hv⟩ | ⟨-, rfl⟩
        · exact listFieldAppend_frame _ _ _ _ hv k hk4
        · rfl
      rw [f4, f3, f2, f1]
    | .null | .bool _ | .num _ _ | .str _ | .arr _ =>
      simp only [syncReport] at hsync
      exact (Except.noConfusion hsync)

/-- Witness for C10 at a concrete successful run (empty report body). -/
theorem C10_report_frame_witness :
    load_all_patient_data (add_medical_report "r1" "p1" (.obj [])
        (save_all_patient_data (.arr [.obj patientIdOnly]))).2 =
        some (.arr ([.obj patientIdOnly].set 0 (.obj
          [("id", .str "p1"),
           ("medicalReports", .arr [.obj [("reportId", .str "r1")]])]))) ∧
    (∀ j, j ≠ 0 → ([.obj patientIdOnly].set 0 (.obj
          [("id", .str "p1"),
           ("medicalReports", .arr [.obj [("reportId", .str "r1")]])])).get? j =
        [JVal.obj patientIdOnly].get? j) ∧
    (∀ k, k ≠ "medicalReports" → k ≠ "healthRecords" → k ≠ "dentalRecords" →
      k ≠ "visionRecords" →
      pyGet [("id", JVal.str "p1"),
             ("medicalReports", JVal.arr [JVal.obj [("reportId", JVal.str "r1")]])] k =
        pyGet patientIdOnly k) :=
  C10_report_frame "r1" "p1" (.obj [])
    (save_all_patient_data (.arr [.obj patientIdOnly]))
    (.arr [.obj patientIdOnly]) [.obj patientIdOnly] 0 patientIdOnly
    [("id", .str "p1"), ("medicalReports", .arr [.obj [("reportId", .str "r1")]])]
    (load_save_roundtrip _) rfl rfl rfl
